import Mathlib

/-!
Verification development for the calendar-heatmap widget
(`src/CalendarHeatmap.tsx`).  The file shallowly embeds the pure core of the
component — value indexing, intensity scaling, colour mixing, legend
resolution, cell-size resolution, calendar-grid construction and per-cell
assembly — and proves the specified properties about the embedding.

Numbers flowing through the component are JavaScript numbers; finite values
are modelled as rationals (`ℚ`), and the non-finite values `NaN`,
`Infinity`, `-Infinity` get explicit constructors so that the
`Number.isFinite` guards of the source are meaningful.  Calendar dates are
modelled as normalized civil triples (year, 0-based month, 1-based day),
exactly the observable state of a JS `Date` produced by the component, with
day arithmetic given by successor/predecessor normalization as performed by
`new Date(y, m, d ± n)`.
-/

/-- Model of a JavaScript number: a finite value (a rational) or one of the
non-finite values `NaN`, `Infinity`, `-Infinity`. -/
inductive JSNum where
  | num (q : ℚ)
  | nan
  | inf
  | ninf
deriving DecidableEq

/-- Embeds the type guard `isFiniteNumber` of the source
(`typeof value === "number" && Number.isFinite(value)`) applied to a
`number | null | undefined` value, modelled as `Option JSNum`. -/
def isFiniteNumber : Option JSNum → Bool
  | some (JSNum.num _) => true
  | _ => false

/-- Embeds the idiom `isFiniteNumber(x) ? x : undefined` (and the analogous
`... : null`): keeps a finite numeric value, discards everything else. -/
def asFiniteNumber : Option JSNum → Option ℚ
  | some (JSNum.num q) => some q
  | _ => none

/-- Embeds JavaScript truthiness of a `number | undefined` value that is
known to be finite when present: `undefined` and `0` are falsy. -/
def jsTruthy : Option ℚ → Bool
  | none => false
  | some q => decide (q ≠ 0)

/-- Embeds `clamp01` of the source: `Math.max(0, Math.min(1, x))`. -/
def clamp01 (x : ℚ) : ℚ := max 0 (min 1 x)

/-- Embeds `Math.round` on a finite value: JavaScript rounds half toward
positive infinity, i.e. `Math.round(x) = ⌊x + 1/2⌋`. -/
def jsRound (x : ℚ) : ℤ := ⌊x + 1 / 2⌋

/-- Embeds the spread `Math.min(...l)` on a nonempty list (`none` stands
for the empty-list case, which the source guards with a length check). -/
def listMin : List ℚ → Option ℚ
  | [] => none
  | x :: xs => some (xs.foldl min x)

/-- Embeds the spread `Math.max(...l)` on a nonempty list. -/
def listMax : List ℚ → Option ℚ
  | [] => none
  | x :: xs => some (xs.foldl max x)

/-- Result record of `buildScale`: the intensity function (taking a
`number | null`, here `Option ℚ` — the component only ever passes `null`
or a finite number) and the `[min, max]` thresholds. -/
structure IntensityScale where
  intensity : Option ℚ → ℚ
  thresholds : List ℚ

/-- Embeds the type-guarded filter
`values.filter((v): v is number => isFiniteNumber(v))` as a partial
projection onto the finite values. -/
def finitePart : JSNum → Option ℚ
  | JSNum.num q => some q
  | _ => none

/-- Embeds `buildScale` (source lines 252–273): filter the finite values,
resolve `min`/`max` with fallback `0`, and return the clamped linear
normalization, with a degenerate range mapping every numeric value to `1`. -/
def buildScale (values : List JSNum) : IntensityScale :=
  let finiteVals : List ℚ := values.filterMap finitePart
  let fallbackValue : ℚ := 0
  let resolvedMin : ℚ := (listMin finiteVals).getD fallbackValue
  let resolvedMax : ℚ := (listMax finiteVals).getD resolvedMin
  let range : ℚ := resolvedMax - resolvedMin
  { intensity := fun v =>
      match v with
      | none => 0
      | some q => if range = 0 then 1 else clamp01 ((q - resolvedMin) / range)
    thresholds := [resolvedMin, resolvedMax] }

/-- Embeds the `scaleValues` memo of the component:
`data.map(d => d.value ?? NaN).filter(v => Number.isFinite(v))`. -/
structure DayValue where
  date : String
  value : Option JSNum
deriving DecidableEq

/-- Embeds the `scaleValues` list fed into `buildScale`. -/
def scaleValues (data : List DayValue) : List JSNum :=
  (data.map (fun d => d.value.getD JSNum.nan)).filter (fun v =>
    match v with
    | JSNum.num _ => true
    | _ => false)

/-- Embeds the `dateValueMap` memo: a `Map` filled left to right with
`m.set(date, isFiniteNumber(value) ? value : null)`; modelled as the lookup
function of the finished map (`Map.get`, `none` = key absent = `undefined`,
`some none` = key present with value `null`). -/
def dateValueMap (data : List DayValue) : String → Option (Option ℚ) :=
  data.foldl
    (fun m dv => fun key =>
      if key = dv.date then some (asFiniteNumber dv.value) else m key)
    (fun _ => none)

/-- Embeds `CalendarHeatmapCellSize`: a bare number or an object with
optional `width`/`height` fields. -/
inductive CellSize where
  | num (n : JSNum)
  | obj (width height : Option JSNum)

/-- Embeds `resolveCellDimensions` (source lines 145–163).  The truthiness
tests `if (width && height)`, `if (width)`, `if (height)` are embedded by
`jsTruthy`; when a branch fires the corresponding value is present, so the
`getD` defaults are never read. -/
def resolveCellDimensions (size : Option CellSize) (fallback : ℚ) : ℚ × ℚ :=
  match size with
  | some (CellSize.num (JSNum.num n)) => (n, n)
  | some (CellSize.obj w h) =>
      let width : Option ℚ := asFiniteNumber w
      let height : Option ℚ := asFiniteNumber h
      if jsTruthy width && jsTruthy height then (width.getD fallback, height.getD fallback)
      else if jsTruthy width then (width.getD fallback, width.getD fallback)
      else if jsTruthy height then (height.getD fallback, height.getD fallback)
      else (fallback, fallback)
  | _ => (fallback, fallback)

/-- Embeds the constant `DEFAULT_LEGEND_LABELS`. -/
def DEFAULT_LEGEND_LABELS : List String := ["Low", "Medium", "High", "Very High"]

/-- Embeds the constant `LEGEND_STEP_COUNT`. -/
def LEGEND_STEP_COUNT : ℕ := 4

/-- Embeds the `legendLabelsResolved` memo (source lines 461–473): caller
labels when nonempty, else the defaults; truncated to 4 or padded from the
defaults via `DEFAULT_LEGEND_LABELS.slice(base.length, LEGEND_STEP_COUNT)`. -/
def legendLabelsResolved (legendLabels : Option (List String)) : List String :=
  let base : List String :=
    match legendLabels with
    | some ls => if ls.length > 0 then ls else DEFAULT_LEGEND_LABELS
    | none => DEFAULT_LEGEND_LABELS
  if LEGEND_STEP_COUNT ≤ base.length then base.take LEGEND_STEP_COUNT
  else base ++ (DEFAULT_LEGEND_LABELS.drop base.length).take (LEGEND_STEP_COUNT - base.length)

/-- One legend entry: a label with its representative intensity. -/
structure LegendLevel where
  label : String
  intensity : ℚ
deriving DecidableEq

/-- Embeds the `legendLevels` memo (source lines 475–482): empty when the
legend is hidden, otherwise four levels at intensities `idx / 3` with the
resolved labels (`getD ""` models the out-of-bounds array read, which never
happens since the resolved list always has length 4). -/
def legendLevels (showLegend : Bool) (resolved : List String) : List LegendLevel :=
  if showLegend then
    (List.range LEGEND_STEP_COUNT).map (fun idx =>
      { label := resolved.getD idx ""
        intensity := (idx : ℚ) / ((LEGEND_STEP_COUNT : ℚ) - 1) })
  else []

/-- Decimal digit as a character, for the embedding of JS number-to-string
conversion (`'9'` is also the default branch; only arguments below 10 occur). -/
def digitChar (n : ℕ) : Char :=
  match n with
  | 0 => '0'
  | 1 => '1'
  | 2 => '2'
  | 3 => '3'
  | 4 => '4'
  | 5 => '5'
  | 6 => '6'
  | 7 => '7'
  | 8 => '8'
  | _ => '9'

/-- Fuel-driven base-10 digit extraction, least significant digit first. -/
def natDigitsAux : ℕ → ℕ → List ℕ
  | 0, _ => []
  | fuel + 1, n => if n = 0 then [] else n % 10 :: natDigitsAux fuel (n / 10)

/-- Base-10 digits of a natural number, least significant first (empty for 0). -/
def natDigits (n : ℕ) : List ℕ := natDigitsAux n n

/-- Value of a least-significant-first digit list. -/
def natVal : List ℕ → ℕ
  | [] => 0
  | d :: ds => d + 10 * natVal ds

/-- Embeds JavaScript decimal rendering of a nonnegative integer
(template-literal interpolation of a number). -/
def natRepr (n : ℕ) : String :=
  if n = 0 then "0" else String.mk (((natDigits n).map digitChar).reverse)

/-- Embeds JavaScript decimal rendering of an integer. -/
def intRepr (i : ℤ) : String :=
  if i < 0 then "-" ++ natRepr (-i).toNat else natRepr i.toNat

/-- Embeds `pad` of the source: `n < 10 ? "0" + n : "" + n`. -/
def pad (n : ℕ) : String :=
  if n < 10 then "0" ++ natRepr n else natRepr n

/-- Hexadecimal value of a character, case insensitive, as used by
`parseInt(c, 16)`; stated on code points (48–57 are `0`–`9`, 97–102 are
`a`–`f`, 65–70 are `A`–`F`). -/
def hexDigitVal (c : Char) : Option ℕ :=
  if 48 ≤ c.toNat ∧ c.toNat ≤ 57 then some (c.toNat - 48)
  else if 97 ≤ c.toNat ∧ c.toNat ≤ 102 then some (c.toNat - 87)
  else if 65 ≤ c.toNat ∧ c.toNat ≤ 70 then some (c.toNat - 55)
  else none

/-- Accumulating hex parse that stops at the first non-hex character, as
`parseInt(·, 16)` does. -/
def hexAccum : List Char → ℕ → ℕ
  | [], acc => acc
  | c :: cs, acc =>
      match hexDigitVal c with
      | some v => hexAccum cs (16 * acc + v)
      | none => acc

/-- Embeds `parseInt(s, 16)` on the strings the component produces: parses
the maximal leading run of hex digits, `none` modelling the `NaN` result
when the string does not start with a hex digit.  (The whitespace, sign and
`0x`-prefix handling of `parseInt` never triggers on these inputs and is
outside the model.) -/
def jsParseInt16 : List Char → Option ℕ
  | [] => none
  | c :: cs =>
      match hexDigitVal c with
      | some _ => some (hexAccum (c :: cs) 0)
      | none => none

/-- Removes the first occurrence of a character, embedding the single-string
form of `String.prototype.replace` used in `hex.replace("#", "")`. -/
def removeFirstChar (ch : Char) : List Char → List Char
  | [] => []
  | c :: cs => if c = ch then cs else c :: removeFirstChar ch cs

/-- Embeds `hexToRgb` (source lines 224–239).  A 3-character string has each
character doubled (`c.split("").map(ch => ch + ch).join("")`); the channel
extractions `(bigint >> 16) & 255` etc. are embedded as the corresponding
bit-field reads of the 32-bit pattern, which agree with JS signed shifting
for every parse result; the `NaN` parse result behaves as `0` under `>>`
and `&`, embedded by `getD 0`. -/
def hexToRgb (hex : String) : ℕ × ℕ × ℕ :=
  let c : List Char := removeFirstChar '#' hex.data
  let cc : List Char := if c.length = 3 then c.flatMap (fun ch => [ch, ch]) else c
  let bigint : ℕ := (jsParseInt16 cc).getD 0
  let r : ℕ := bigint % 2 ^ 32 / 2 ^ 16 % 256
  let g : ℕ := bigint % 2 ^ 32 / 2 ^ 8 % 256
  let b : ℕ := bigint % 2 ^ 32 % 256
  (r, g, b)

/-- Embeds `mixToWhite` (source lines 240–247): per-channel linear
interpolation from white (`t = 0`) to the base colour (`t = 1`), rounded
with `Math.round`, rendered as an `rgb(r, g, b)` string. -/
def mixToWhite (hex : String) (t : ℚ) : String :=
  let rgb := hexToRgb hex
  let r : ℕ := rgb.1
  let g : ℕ := rgb.2.1
  let b : ℕ := rgb.2.2
  let rr : ℤ := jsRound ((r : ℚ) + ((255 : ℚ) - (r : ℚ)) * (1 - t))
  let gg : ℤ := jsRound ((g : ℚ) + ((255 : ℚ) - (g : ℚ)) * (1 - t))
  let bb : ℤ := jsRound ((b : ℚ) + ((255 : ℚ) - (b : ℚ)) * (1 - t))
  "rgb(" ++ intRepr rr ++ ", " ++ intRepr gg ++ ", " ++ intRepr bb ++ ")"

/-- One grid day as produced by `buildMonthDays`: its ISO date string and
whether it belongs to the grid's owning month. -/
structure MonthDay where
  iso : String
  inMonth : Bool
deriving DecidableEq

/-- Per-cell view state computed by the render loop of the component
(source lines 622–658): the resolved value, intensity, fill colour and
click-eligibility.  The purely typographic attributes (day number, unit
formatting, aria text) are not needed by any claim and are omitted. -/
structure CellView where
  iso : String
  inMonth : Bool
  valueForCell : Option ℚ
  intensity : ℚ
  fill : String
  interactive : Bool

/-- Embeds the per-day body of the render loop: value lookup, in-month
gating, intensity, fill colour selection and the `interactive` flag
(`!!onDayClick && inMonth`, modelled by `hasDayClick`). -/
def assembleDay (data : List DayValue) (scale : IntensityScale)
    (baseColor emptyColor : String) (hasDayClick : Bool) (day : MonthDay) :
    CellView :=
  let dataValue : Option (Option ℚ) := dateValueMap data day.iso
  let valueForCell : Option ℚ :=
    if day.inMonth &&
        (match dataValue with
         | some (some _) => true
         | _ => false) then
      dataValue.getD none
    else none
  let intensity : ℚ :=
    if valueForCell = none then 0 else scale.intensity valueForCell
  let hasValue : Bool := day.inMonth && decide (valueForCell ≠ none)
  let fill : String :=
    if hasValue then mixToWhite baseColor intensity else emptyColor
  let interactive : Bool := hasDayClick && day.inMonth
  { iso := day.iso
    inMonth := day.inMonth
    valueForCell := valueForCell
    intensity := intensity
    fill := fill
    interactive := interactive }

/-- Embeds the full cell assembly for one month grid: the scale is built
from the range-wide `scaleValues` of the data and every day is rendered
with `assembleDay`. -/
def renderedCells (data : List DayValue) (baseColor emptyColor : String)
    (hasDayClick : Bool) (days : List MonthDay) : List CellView :=
  days.map
    (assembleDay data (buildScale (scaleValues data)) baseColor emptyColor hasDayClick)

/-- Normalized civil date: the observable state of a JS `Date` value used by
the component (`getFullYear`, 0-based `getMonth`, 1-based `getDate`). -/
structure CivilDate where
  year : ℤ
  month : ℕ
  day : ℕ
deriving DecidableEq

/-- Gregorian leap-year rule, as implemented by the JS `Date` calendar. -/
def isLeap (y : ℤ) : Bool := (y % 4 = 0 && decide (y % 100 ≠ 0)) || y % 400 = 0

/-- Length of a 0-based month of a given year (default branch `31` covers
month 11; months `≥ 12` never occur on valid dates). -/
def daysInMonth (y : ℤ) (m : ℕ) : ℕ :=
  match m with
  | 0 => 31
  | 1 => if isLeap y then 29 else 28
  | 2 => 31
  | 3 => 30
  | 4 => 31
  | 5 => 30
  | 6 => 31
  | 7 => 31
  | 8 => 30
  | 9 => 31
  | 10 => 30
  | _ => 31

/-- A civil triple is a real calendar date. -/
def ValidDate (dt : CivilDate) : Prop :=
  dt.month < 12 ∧ 1 ≤ dt.day ∧ dt.day ≤ daysInMonth dt.year dt.month

instance (dt : CivilDate) : Decidable (ValidDate dt) := by
  unfold ValidDate
  infer_instance

/-- Days contributed by the months of year `y` strictly before month `m`. -/
def daysBeforeMonth (y : ℤ) (m : ℕ) : ℕ :=
  (List.range m).foldl (fun acc k => acc + daysInMonth y k) 0

/-- Number of leap years in `[0, y)` (negated count of `[y, 0)` for
negative `y`); `/` on `ℤ` floors for these positive divisors. -/
def leapsBefore (y : ℤ) : ℤ := (y + 3) / 4 - (y + 99) / 100 + (y + 399) / 400

/-- Days from the calendar origin to the start of year `y`. -/
def daysBeforeYear (y : ℤ) : ℤ := 365 * y + leapsBefore y

/-- Linear day number of a civil date (day count from the calendar origin);
two valid dates compare, subtract and advance exactly as their JS `Date`
timestamps do. -/
def dayNumber (dt : CivilDate) : ℤ :=
  daysBeforeYear dt.year + daysBeforeMonth dt.year dt.month + dt.day - 1

/-- Next calendar day of a valid civil date, embedding the normalization of
`new Date(y, m, d + 1)`. -/
def succDate (dt : CivilDate) : CivilDate :=
  if dt.day < daysInMonth dt.year dt.month then ⟨dt.year, dt.month, dt.day + 1⟩
  else if dt.month + 1 < 12 then ⟨dt.year, dt.month + 1, 1⟩
  else ⟨dt.year + 1, 0, 1⟩

/-- Previous calendar day of a valid civil date, embedding the normalization
of `new Date(y, m, d - 1)`. -/
def predDate (dt : CivilDate) : CivilDate :=
  if 1 < dt.day then ⟨dt.year, dt.month, dt.day - 1⟩
  else if dt.month = 0 then ⟨dt.year - 1, 11, 31⟩
  else ⟨dt.year, dt.month - 1, daysInMonth dt.year (dt.month - 1)⟩

/-- Embeds `addDays` of the source (`new Date(y, m, d + n)`): day stepping
by iterated normalization. -/
def addDays (dt : CivilDate) (n : ℤ) : CivilDate :=
  if 0 ≤ n then succDate^[n.toNat] dt else predDate^[(-n).toNat] dt

/-- Embeds `Date.prototype.getDay`: weekday with Sunday = 0; the offset
anchors 1970-01-01 (day number 719528) to Thursday = 4. -/
def getDay (dt : CivilDate) : ℕ := ((dayNumber dt + 6) % 7).toNat

/-- Week start convention of the widget. -/
inductive WeekStart where
  | sun
  | mon
deriving DecidableEq

/-- Embeds the `target` weekday of `startOfWeek`. -/
def weekStartTarget : WeekStart → ℕ
  | WeekStart.sun => 0
  | WeekStart.mon => 1

/-- Embeds the `target` weekday of `endOfWeek`. -/
def weekEndTarget : WeekStart → ℕ
  | WeekStart.sun => 6
  | WeekStart.mon => 0

/-- Embeds `startOfWeek` (source lines 210–215): step back
`(day - target + 7) % 7` days. -/
def startOfWeek (date : CivilDate) (weekStart : WeekStart) : CivilDate :=
  addDays date (-(((getDay date : ℤ) - (weekStartTarget weekStart : ℤ) + 7) % 7))

/-- Embeds `endOfWeek` (source lines 216–221): step forward
`(target - day + 7) % 7` days. -/
def endOfWeek (date : CivilDate) (weekStart : WeekStart) : CivilDate :=
  addDays date (((weekEndTarget weekStart : ℤ) - (getDay date : ℤ) + 7) % 7)

/-- Embeds `endOfMonth`: `new Date(y, m + 1, 0)` normalizes day 0 to the
last day of month `m`. -/
def endOfMonth (dt : CivilDate) : CivilDate :=
  ⟨dt.year, dt.month, daysInMonth dt.year dt.month⟩

/-- Embeds `toISO` (source lines 207–208):
`year + "-" + pad(month + 1) + "-" + pad(day)`. -/
def toISO (dt : CivilDate) : String :=
  intRepr dt.year ++ "-" ++ pad (dt.month + 1) ++ "-" ++ pad dt.day

/-- Date sequence of the month grid: the loop
`for (d = gridStart; d <= gridEnd; d = addDays(d, 1))` of `buildMonthDays`,
embedded as the range of day offsets from `gridStart` to `gridEnd` (the
loop guard compares timestamps, i.e. day numbers). -/
def monthGridDates (year : ℤ) (month : ℕ) (weekStart : WeekStart) : List CivilDate :=
  let firstOfMonth : CivilDate := ⟨year, month, 1⟩
  let gridStart := startOfWeek firstOfMonth weekStart
  let gridEnd := endOfWeek (endOfMonth firstOfMonth) weekStart
  (List.range (dayNumber gridEnd + 1 - dayNumber gridStart).toNat).map
    (fun (i : ℕ) => addDays gridStart (i : ℤ))

/-- Embeds `buildMonthDays` (source lines 279–296): each grid day is pushed
as `{ iso, inMonth: d.getMonth() === month }`. -/
def buildMonthDays (year : ℤ) (month : ℕ) (weekStart : WeekStart) : List MonthDay :=
  (monthGridDates year month weekStart).map
    (fun d => { iso := toISO d, inMonth := decide (d.month = month) })

/-- One month grid of the widget. -/
structure MonthInfo where
  year : ℤ
  month : ℕ
  days : List MonthDay
deriving DecidableEq

/-- Embeds the cursor step `new Date(y, m + 1, 1)` of `buildMonths`. -/
def nextMonth (p : ℤ × ℕ) : ℤ × ℕ :=
  if p.2 + 1 < 12 then (p.1, p.2 + 1) else (p.1 + 1, 0)

/-- Linear index of a year/month pair; the `buildMonths` loop runs while
`monthIndex cursor ≤ monthIndex end`. -/
def monthIndex (p : ℤ × ℕ) : ℤ := 12 * p.1 + (p.2 : ℤ)

/-- Embeds `buildMonths` (source lines 298–327) from the parsed start and
end year/month pairs (the `parseYM` string splitting and the clock default
for a missing `end` happen before this computation and are not modelled):
one `MonthInfo` per month while the cursor has not passed the end month. -/
def buildMonths (startY : ℤ) (startM : ℕ) (endY : ℤ) (endM : ℕ)
    (weekStart : WeekStart) : List MonthInfo :=
  let count : ℕ := (monthIndex (endY, endM) + 1 - monthIndex (startY, startM)).toNat
  (List.range count).map (fun i =>
    let p := nextMonth^[i] (startY, startM)
    { year := p.1, month := p.2, days := buildMonthDays p.1 p.2 weekStart })

/-- Embeds the `safeMonths` memo (source lines 489–499): the built month
sequence, or a single fallback grid for the start month when it is empty. -/
def safeMonths (startY : ℤ) (startM : ℕ) (endY : ℤ) (endM : ℕ)
    (weekStart : WeekStart) : List MonthInfo :=
  let months := buildMonths startY startM endY endM weekStart
  if months.length > 0 then months
  else [{ year := startY, month := startM, days := buildMonthDays startY startM weekStart }]

/-!
Helper lemmas about folded minima and maxima, matching the spread forms
`Math.min(...l)` / `Math.max(...l)`.
-/

theorem foldl_min_le_init (xs : List ℚ) (x : ℚ) : xs.foldl min x ≤ x := by
  induction xs generalizing x with
  | nil => simp
  | cons y ys ih => exact le_trans (ih (min x y)) (min_le_left x y)

theorem foldl_min_le_mem (xs : List ℚ) (x y : ℚ) (hy : y ∈ xs) :
    xs.foldl min x ≤ y := by
  induction xs generalizing x with
  | nil => cases hy
  | cons z zs ih =>
      rcases List.mem_cons.mp hy with h | h
      · subst h
        exact le_trans (foldl_min_le_init zs (min x y)) (min_le_right x y)
      · exact ih (min x z) h

theorem foldl_min_mem (xs : List ℚ) (x : ℚ) :
    xs.foldl min x = x ∨ xs.foldl min x ∈ xs := by
  induction xs generalizing x with
  | nil => exact Or.inl rfl
  | cons y ys ih =>
      rcases ih (min x y) with h | h
      · rcases min_cases x y with ⟨hmin, _⟩ | ⟨hmin, _⟩
        · exact Or.inl (by rw [List.foldl_cons, h, hmin])
        · refine Or.inr ?_
          rw [List.foldl_cons, h, hmin]
          exact List.mem_cons_self y ys
      · exact Or.inr (List.mem_cons_of_mem y h)

theorem init_le_foldl_max (xs : List ℚ) (x : ℚ) : x ≤ xs.foldl max x := by
  induction xs generalizing x with
  | nil => simp
  | cons y ys ih => exact le_trans (le_max_left x y) (ih (max x y))

theorem mem_le_foldl_max (xs : List ℚ) (x y : ℚ) (hy : y ∈ xs) :
    y ≤ xs.foldl max x := by
  induction xs generalizing x with
  | nil => cases hy
  | cons z zs ih =>
      rcases List.mem_cons.mp hy with h | h
      · subst h
        exact le_trans (le_max_right x y) (init_le_foldl_max zs (max x y))
      · exact ih (max x z) h

theorem listMin_le_listMax (values : List ℚ) (m M : ℚ)
    (hm : listMin values = some m) (hM : listMax values = some M) : m ≤ M := by
  cases values with
  | nil => cases hm
  | cons v vs =>
      simp only [listMin, Option.some.injEq] at hm
      simp only [listMax, Option.some.injEq] at hM
      subst hm
      subst hM
      rcases foldl_min_mem vs v with h | h
      · rw [h]
        exact init_le_foldl_max vs v
      · exact le_trans (foldl_min_le_init vs v) (init_le_foldl_max vs v) |>.trans le_rfl |>.trans le_rfl |>.trans le_rfl

theorem filterMap_finitePart_map_num (values : List ℚ) :
    (values.map JSNum.num).filterMap finitePart = values := by
  induction values with
  | nil => rfl
  | cons x xs ih => simp [List.filterMap_cons, finitePart, ih]

/-- C1 (amended): when the input data contains zero finite values,
`buildScale` resolves `min = max = 0` (thresholds `[0, 0]`); the scale
function returns `0` for a `null` lookup but, through the degenerate-range
rule, returns `1` (not `0`) for every numeric value passed to it. -/
theorem C1_zero_finite_scale (values : List JSNum)
    (h : values.filterMap finitePart = []) :
    (buildScale values).thresholds = [0, 0] ∧
    (buildScale values).intensity none = 0 ∧
    ∀ q : ℚ, (buildScale values).intensity (some q) = 1 := by
  simp [buildScale, h, listMin, listMax]

/-- Witness for `C1_zero_finite_scale` at the concrete one-element `NaN`
data set. -/
theorem C1_zero_finite_scale_witness :
    ([JSNum.nan].filterMap finitePart = []) ∧
    (buildScale [JSNum.nan]).thresholds = [0, 0] ∧
    (buildScale [JSNum.nan]).intensity none = 0 ∧
    (buildScale [JSNum.nan]).intensity (some 5) = 1 := by
  have h : [JSNum.nan].filterMap finitePart = [] := by decide
  have hc := C1_zero_finite_scale [JSNum.nan] h
  exact ⟨h, hc.1, hc.2.1, hc.2.2 5⟩

/-- Counterexample to C1 as stated: with zero finite values the scale maps
the numeric value `5` to `1`, not to `0`. -/
theorem C1_zero_finite_counterexample :
    (buildScale []).intensity (some 5) ≠ 0 := by
  simp [buildScale, listMin, listMax]

/-- C4: for a list of finite input values with minimum `m` and maximum `M`,
the constructed intensity scale is monotonically non-decreasing on numbers,
maps `m` to `0` and `M` to `1` when `m < M`, and maps the common value to
`1` when all values are equal. -/
theorem C4_scale_monotone (values : List ℚ) (m M : ℚ)
    (hm : listMin values = some m) (hM : listMax values = some M) :
    (∀ a b : ℚ, a ≤ b →
      (buildScale (values.map JSNum.num)).intensity (some a) ≤
        (buildScale (values.map JSNum.num)).intensity (some b)) ∧
    (m < M →
      (buildScale (values.map JSNum.num)).intensity (some m) = 0 ∧
      (buildScale (values.map JSNum.num)).intensity (some M) = 1) ∧
    (m = M → (buildScale (values.map JSNum.num)).intensity (some m) = 1) := by
  have hfm := filterMap_finitePart_map_num values
  simp only [buildScale, hfm, hm, hM, Option.getD_some]
  refine ⟨?_, ?_, ?_⟩
  · intro a b hab
    by_cases hr : M - m = 0
    · simp [hr]
    · have hpos : 0 < M - m :=
        lt_of_le_of_ne (by linarith [listMin_le_listMax values m M hm hM]) (Ne.symm hr)
      simp only [if_neg hr]
      unfold clamp01
      refine max_le_max le_rfl (min_le_min le_rfl ?_)
      exact div_le_div_of_nonneg_right (by linarith) hpos.le
  · intro hlt
    have hr : M - m ≠ 0 := by linarith
    constructor
    · simp only [if_neg hr, sub_self, zero_div]
      unfold clamp01
      norm_num
    · simp only [if_neg hr, div_self hr]
      unfold clamp01
      norm_num
  · intro heq
    subst heq
    simp

/-- Witness for `C4_scale_monotone` at the concrete value list `[3, 1, 2]`
(minimum 1, maximum 3). -/
theorem C4_scale_monotone_witness :
    listMin [3, 1, 2] = some 1 ∧ listMax [3, 1, 2] = some 3 ∧
    (buildScale ([3, 1, 2].map JSNum.num)).intensity (some 1) = 0 ∧
    (buildScale ([3, 1, 2].map JSNum.num)).intensity (some 3) = 1 ∧
    (buildScale ([3, 1, 2].map JSNum.num)).intensity (some 1) ≤
      (buildScale ([3, 1, 2].map JSNum.num)).intensity (some 2) := by
  have hm : listMin [3, 1, 2] = some 1 := by
    norm_num [listMin, min_def]
  have hM : listMax [3, 1, 2] = some 3 := by
    norm_num [listMax, max_def]
  have hc := C4_scale_monotone [3, 1, 2] 1 3 hm hM
  have hlt := hc.2.1 (by norm_num)
  exact ⟨hm, hM, hlt.1, hlt.2, hc.1 1 2 (by norm_num)⟩

/-- C3 (amended): cell-dimension resolution with the truthiness rule the
code actually applies — a dimension equal to `0` (like a missing or
non-finite one) counts as absent.  A single finite number `n` yields the
square `(n, n)` (including `n = 0`); an object with both dimensions finite
and nonzero yields them as given; an object with exactly one finite nonzero
dimension yields a square of that dimension; in every other case the result
is the 44px default square. -/
theorem C3_cell_dimensions :
    (∀ n : ℚ, resolveCellDimensions (some (CellSize.num (JSNum.num n))) 44 = (n, n)) ∧
    (∀ w h : ℚ, w ≠ 0 → h ≠ 0 →
      resolveCellDimensions
        (some (CellSize.obj (some (JSNum.num w)) (some (JSNum.num h)))) 44 = (w, h)) ∧
    (∀ (w : ℚ) (h : Option JSNum), w ≠ 0 → jsTruthy (asFiniteNumber h) = false →
      resolveCellDimensions (some (CellSize.obj (some (JSNum.num w)) h)) 44 = (w, w)) ∧
    (∀ (w : Option JSNum) (h : ℚ), jsTruthy (asFiniteNumber w) = false → h ≠ 0 →
      resolveCellDimensions (some (CellSize.obj w (some (JSNum.num h)))) 44 = (h, h)) ∧
    (∀ w h : Option JSNum,
      jsTruthy (asFiniteNumber w) = false → jsTruthy (asFiniteNumber h) = false →
      resolveCellDimensions (some (CellSize.obj w h)) 44 = (44, 44)) ∧
    (∀ v : JSNum, isFiniteNumber (some v) = false →
      resolveCellDimensions (some (CellSize.num v)) 44 = (44, 44)) ∧
    resolveCellDimensions none 44 = (44, 44) := by
  refine ⟨?_, ?_, ?_, ?_, ?_, ?_, rfl⟩
  · intro n
    rfl
  · intro w h hw hh
    simp [resolveCellDimensions, asFiniteNumber, jsTruthy, hw, hh]
  · intro w h hw hh
    have hW : jsTruthy (some w) = true := by simp [jsTruthy, hw]
    cases h with
    | none => simp [resolveCellDimensions, asFiniteNumber, jsTruthy, hW, hw]
    | some v =>
        cases v with
        | num q =>
            have hq : q = 0 := by
              by_contra hq
              simp [jsTruthy, asFiniteNumber, hq] at hh
            subst hq
            simp [resolveCellDimensions, asFiniteNumber, jsTruthy, hW, hw]
        | nan => simp [resolveCellDimensions, asFiniteNumber, jsTruthy, hW, hw]
        | inf => simp [resolveCellDimensions, asFiniteNumber, jsTruthy, hW, hw]
        | ninf => simp [resolveCellDimensions, asFiniteNumber, jsTruthy, hW, hw]
  · intro w h hw hh
    have hH : jsTruthy (some h) = true := by simp [jsTruthy, hh]
    cases w with
    | none => simp [resolveCellDimensions, asFiniteNumber, jsTruthy, hH, hh]
    | some v =>
        cases v with
        | num q =>
            have hq : q = 0 := by
              by_contra hq
              simp [jsTruthy, asFiniteNumber, hq] at hw
            subst hq
            simp [resolveCellDimensions, asFiniteNumber, jsTruthy, hH, hh]
        | nan => simp [resolveCellDimensions, asFiniteNumber, jsTruthy, hH, hh]
        | inf => simp [resolveCellDimensions, asFiniteNumber, jsTruthy, hH, hh]
        | ninf => simp [resolveCellDimensions, asFiniteNumber, jsTruthy, hH, hh]
  · intro w h hw hh
    simp only [resolveCellDimensions]
    simp [hw, hh]
  · intro v hv
    cases v with
    | num q => simp [isFiniteNumber] at hv
    | nan => rfl
    | inf => rfl
    | ninf => rfl

/-- Witness for `C3_cell_dimensions` at concrete sizes, including the
zero-width case that falls back to the default. -/
theorem C3_cell_dimensions_witness :
    resolveCellDimensions (some (CellSize.num (JSNum.num 7))) 44 = (7, 7) ∧
    resolveCellDimensions
      (some (CellSize.obj (some (JSNum.num 5)) (some (JSNum.num 9)))) 44 = (5, 9) ∧
    resolveCellDimensions (some (CellSize.obj (some (JSNum.num 5)) none)) 44 = (5, 5) ∧
    resolveCellDimensions
      (some (CellSize.obj (some (JSNum.num 0)) (some (JSNum.num 9)))) 44 = (9, 9) ∧
    resolveCellDimensions (some (CellSize.obj none none)) 44 = (44, 44) ∧
    resolveCellDimensions (some (CellSize.num JSNum.nan)) 44 = (44, 44) ∧
    resolveCellDimensions none 44 = (44, 44) := by
  have hc := C3_cell_dimensions
  exact ⟨hc.1 7, hc.2.1 5 9 (by norm_num) (by norm_num),
    hc.2.2.1 5 none (by norm_num) rfl,
    hc.2.2.2.1 (some (JSNum.num 0)) 9 (by simp [asFiniteNumber, jsTruthy]) (by norm_num),
    hc.2.2.2.2.1 none none rfl rfl,
    hc.2.2.2.2.2.1 JSNum.nan rfl,
    hc.2.2.2.2.2.2⟩

/-- Counterexample to C3 as stated: an object whose only present dimension
is `width: 0` does not resolve to the square `(0, 0)` — the truthiness test
treats `0` as absent and the default `(44, 44)` is returned. -/
theorem C3_zero_width_counterexample :
    resolveCellDimensions (some (CellSize.obj (some (JSNum.num 0)) none)) 44 ≠ (0, 0) := by
  simp [resolveCellDimensions, asFiniteNumber, jsTruthy]

theorem range_four : List.range 4 = [0, 1, 2, 3] := by decide

theorem legendLabelsResolved_eq (ls : List String) :
    legendLabelsResolved (some ls) =
      (if 4 ≤ ls.length then ls.take 4
       else ls ++ (DEFAULT_LEGEND_LABELS.drop ls.length).take (4 - ls.length)) := by
  by_cases h4 : 4 ≤ ls.length
  · have hpos : ls.length > 0 := by omega
    simp [legendLabelsResolved, LEGEND_STEP_COUNT, hpos, h4]
  · by_cases hpos : ls.length > 0
    · simp [legendLabelsResolved, LEGEND_STEP_COUNT, hpos, h4]
    · have hnil : ls = [] := List.length_eq_zero.mp (by omega)
      subst hnil
      simp [legendLabelsResolved, LEGEND_STEP_COUNT, DEFAULT_LEGEND_LABELS]

theorem legendLabelsResolved_length (ls : List String) :
    (legendLabelsResolved (some ls)).length = 4 := by
  rw [legendLabelsResolved_eq]
  by_cases h4 : 4 ≤ ls.length
  · simp [h4]
  · simp [h4, DEFAULT_LEGEND_LABELS]
    omega

theorem legendLevels_unfold (R : List String) :
    legendLevels true R = (List.range LEGEND_STEP_COUNT).map (fun idx =>
      { label := R.getD idx ""
        intensity := (idx : ℚ) / ((LEGEND_STEP_COUNT : ℚ) - 1) }) := by
  simp [legendLevels]

theorem legendLevels_intensities (R : List String) :
    (legendLevels true R).map LegendLevel.intensity = [0, 1 / 3, 2 / 3, 1] := by
  rw [legendLevels_unfold, show (LEGEND_STEP_COUNT : ℕ) = 4 from rfl, range_four]
  simp [List.map_map, LEGEND_STEP_COUNT]
  norm_num

theorem legendLevels_labels_of_length_four (R : List String) (h : R.length = 4) :
    (legendLevels true R).map LegendLevel.label = R := by
  match R, h with
  | [a, b, c, d], _ => rfl

/-- C5: for every caller-supplied label list the legend builder produces
exactly 4 levels at intensities `0, 1/3, 2/3, 1`; labels are taken
left-to-right from the caller's list, padded from the default set starting
at the index where the caller's labels ran out when fewer than 4 are given,
and truncated to the first 4 otherwise; in particular `["A"]` resolves to
`["A", "Medium", "High", "Very High"]`. -/
theorem C5_legend_levels (ls : List String) :
    (legendLevels true (legendLabelsResolved (some ls))).length = 4 ∧
    (legendLevels true (legendLabelsResolved (some ls))).map LegendLevel.intensity =
      [0, 1 / 3, 2 / 3, 1] ∧
    (legendLevels true (legendLabelsResolved (some ls))).map LegendLevel.label =
      (if 4 ≤ ls.length then ls.take 4
       else ls ++ (DEFAULT_LEGEND_LABELS.drop ls.length).take (4 - ls.length)) ∧
    legendLabelsResolved (some ["A"]) = ["A", "Medium", "High", "Very High"] := by
  refine ⟨?_, legendLevels_intensities _, ?_, rfl⟩
  · rw [legendLevels_unfold]
    simp [LEGEND_STEP_COUNT]
  · rw [← legendLabelsResolved_eq]
    exact legendLevels_labels_of_length_four _ (legendLabelsResolved_length ls)

/-- C8: when the supplied end month precedes the start month the month
builder returns the empty sequence, and `safeMonths` substitutes the single
fallback grid built for the start month, so the displayed month list is
never empty. -/
theorem C8_end_before_start (sy : ℤ) (sm : ℕ) (ey : ℤ) (em : ℕ) (ws : WeekStart)
    (h : monthIndex (ey, em) < monthIndex (sy, sm)) :
    buildMonths sy sm ey em ws = [] ∧
    safeMonths sy sm ey em ws =
      [{ year := sy, month := sm, days := buildMonthDays sy sm ws }] ∧
    safeMonths sy sm ey em ws ≠ [] := by
  have hcount : (monthIndex (ey, em) + 1 - monthIndex (sy, sm)).toNat = 0 := by
    omega
  have hb : buildMonths sy sm ey em ws = [] := by
    simp [buildMonths, hcount]
  exact ⟨hb, by simp [safeMonths, hb], by simp [safeMonths, hb]⟩

/-- Witness for `C8_end_before_start`: June 2025 to March 2025. -/
theorem C8_end_before_start_witness :
    monthIndex (2025, 2) < monthIndex (2025, 5) ∧
    buildMonths 2025 5 2025 2 WeekStart.sun = [] ∧
    safeMonths 2025 5 2025 2 WeekStart.sun =
      [{ year := 2025, month := 5, days := buildMonthDays 2025 5 WeekStart.sun }] ∧
    safeMonths 2025 5 2025 2 WeekStart.sun ≠ [] := by
  have h : monthIndex (2025, 2) < monthIndex (2025, 5) := by decide
  have hc := C8_end_before_start 2025 5 2025 2 WeekStart.sun h
  exact ⟨h, hc.1, hc.2.1, hc.2.2⟩

theorem dateValueMap_foldl_spec (data : List DayValue) (date : String)
    (init : String → Option (Option ℚ)) :
    data.foldl
        (fun m dv => fun key =>
          if key = dv.date then some (asFiniteNumber dv.value) else m key)
        init date =
      (match (data.filter (fun dv => dv.date == date)).getLast? with
       | some e => some (asFiniteNumber e.value)
       | none => init date) := by
  induction data using List.reverseRecOn with
  | nil => rfl
  | append_singleton xs x ih =>
      rw [List.foldl_append, List.foldl_cons, List.foldl_nil, List.filter_append]
      by_cases hd : date = x.date
      · have hb : (x.date == date) = true := by simp [hd]
        simp only [List.filter_cons, hb, if_true, List.filter_nil,
          List.getLast?_concat, if_pos hd]
      · have hb : (x.date == date) = false := by
          simp only [beq_eq_false_iff_ne, ne_eq]
          intro he
          exact hd he.symm
        simp only [List.filter_cons, hb, Bool.false_eq_true, if_false,
          List.filter_nil, List.append_nil, if_neg hd]
        exact ih

/-- C10: duplicate dates in the input resolve by last-write-wins — the
value index maps a date to the normalized value of the last entry with
that date (non-finite values normalized to absent, i.e. `null`). -/
theorem C10_last_write_wins (data : List DayValue) (date : String) (e : DayValue)
    (h : (data.filter (fun dv => dv.date == date)).getLast? = some e) :
    dateValueMap data date = some (asFiniteNumber e.value) := by
  unfold dateValueMap
  rw [dateValueMap_foldl_spec data date (fun _ => none), h]

/-- Witness for `C10_last_write_wins`: two entries for the same date (the
later one wins) and a `NaN` entry normalizing to `null`. -/
theorem C10_last_write_wins_witness :
    (([({ date := "2025-01-01", value := some (JSNum.num 1) } : DayValue),
       { date := "2025-01-01", value := some (JSNum.num 2) },
       { date := "2025-01-02", value := some JSNum.nan }].filter
        (fun dv => dv.date == "2025-01-01")).getLast? =
      some { date := "2025-01-01", value := some (JSNum.num 2) }) ∧
    dateValueMap
      [{ date := "2025-01-01", value := some (JSNum.num 1) },
       { date := "2025-01-01", value := some (JSNum.num 2) },
       { date := "2025-01-02", value := some JSNum.nan }] "2025-01-01" =
      some (some 2) ∧
    dateValueMap
      [{ date := "2025-01-01", value := some (JSNum.num 1) },
       { date := "2025-01-01", value := some (JSNum.num 2) },
       { date := "2025-01-02", value := some JSNum.nan }] "2025-01-02" =
      some none := by
  refine ⟨by decide, ?_, ?_⟩
  · exact C10_last_write_wins _ "2025-01-01"
      { date := "2025-01-01", value := some (JSNum.num 2) } (by decide)
  · exact C10_last_write_wins _ "2025-01-02"
      { date := "2025-01-02", value := some JSNum.nan } (by decide)

/-- C2 (amended): with an empty data list every assembled cell is filled
with the configured `emptyColor`; however a cell is interactive exactly
when a day-click handler is provided and the cell is in-month — providing a
handler keeps in-month cells clickable even with no data. -/
theorem C2_empty_data_cells (baseColor emptyColor : String) (hasDayClick : Bool)
    (days : List MonthDay) (cell : CellView)
    (hcell : cell ∈ renderedCells [] baseColor emptyColor hasDayClick days) :
    cell.fill = emptyColor ∧ cell.interactive = (hasDayClick && cell.inMonth) := by
  rcases List.mem_map.mp hcell with ⟨day, _, rfl⟩
  constructor
  · simp [assembleDay, dateValueMap]
  · rfl

/-- Witness for `C2_empty_data_cells` on a one-cell grid with a handler. -/
theorem C2_empty_data_cells_witness :
    (assembleDay [] (buildScale (scaleValues [])) "#3b82f6" "#FFECEC" true
        { iso := "2025-02-10", inMonth := true } ∈
      renderedCells [] "#3b82f6" "#FFECEC" true [{ iso := "2025-02-10", inMonth := true }]) ∧
    (assembleDay [] (buildScale (scaleValues [])) "#3b82f6" "#FFECEC" true
        { iso := "2025-02-10", inMonth := true }).fill = "#FFECEC" ∧
    (assembleDay [] (buildScale (scaleValues [])) "#3b82f6" "#FFECEC" true
        { iso := "2025-02-10", inMonth := true }).interactive =
      (true && ((assembleDay [] (buildScale (scaleValues [])) "#3b82f6" "#FFECEC" true
        { iso := "2025-02-10", inMonth := true }).inMonth)) := by
  have hmem : assembleDay [] (buildScale (scaleValues [])) "#3b82f6" "#FFECEC" true
      { iso := "2025-02-10", inMonth := true } ∈
      renderedCells [] "#3b82f6" "#FFECEC" true [{ iso := "2025-02-10", inMonth := true }] := by
    simp [renderedCells]
  have hc := C2_empty_data_cells "#3b82f6" "#FFECEC" true
    [{ iso := "2025-02-10", inMonth := true }] _ hmem
  exact ⟨hmem, hc.1, hc.2⟩

/-- Counterexample to C2 as stated: with `data = []` and a day-click
handler provided, an in-month cell is still interactive. -/
theorem C2_interactive_counterexample :
    (assembleDay [] (buildScale (scaleValues [])) "#3b82f6" "#FFECEC" true
      { iso := "2025-02-10", inMonth := true }).interactive = true := rfl

theorem hexDigitVal_lt_16 (c : Char) (v : ℕ) (h : hexDigitVal c = some v) :
    v < 16 := by
  unfold hexDigitVal at h
  split_ifs at h with h1 h2 h3
  · simp only [Option.some.injEq] at h
    omega
  · simp only [Option.some.injEq] at h
    omega
  · simp only [Option.some.injEq] at h
    omega

theorem jsRound_natCast (n : ℕ) : jsRound (n : ℚ) = (n : ℤ) := by
  unfold jsRound
  rw [Int.floor_eq_iff]
  constructor
  · push_cast
    linarith
  · push_cast
    linarith

theorem jsRound_channel_at_zero (r : ℕ) :
    jsRound ((r : ℚ) + ((255 : ℚ) - (r : ℚ)) * (1 - 0)) = 255 := by
  have he : ((r : ℚ) + ((255 : ℚ) - (r : ℚ)) * (1 - 0)) = ((255 : ℕ) : ℚ) := by
    push_cast
    ring
  rw [he, jsRound_natCast]
  rfl

theorem jsRound_channel_at_one (r : ℕ) :
    jsRound ((r : ℚ) + ((255 : ℚ) - (r : ℚ)) * (1 - 1)) = (r : ℤ) := by
  have he : ((r : ℚ) + ((255 : ℚ) - (r : ℚ)) * (1 - 1)) = (r : ℚ) := by ring
  rw [he, jsRound_natCast]

/-- C9: for a valid base colour (3- or 6-digit hex, the 3-digit form
expanded by doubling each nibble) the colour mixer computes each RGB
channel as `base + (255 - base) * (1 - t)` rounded to nearest (half-up);
in particular intensity 0 yields pure white `rgb(255, 255, 255)` and
intensity 1 yields the base colour after hex normalization. -/
theorem C9_color_mixer (hex : String) (t : ℚ) (ht0 : 0 ≤ t) (ht1 : t ≤ 1) :
    (∀ c1 c2 c3 c4 c5 c6 v1 v2 v3 v4 v5 v6,
      removeFirstChar '#' hex.data = [c1, c2, c3, c4, c5, c6] →
      hexDigitVal c1 = some v1 → hexDigitVal c2 = some v2 →
      hexDigitVal c3 = some v3 → hexDigitVal c4 = some v4 →
      hexDigitVal c5 = some v5 → hexDigitVal c6 = some v6 →
      hexToRgb hex = (16 * v1 + v2, 16 * v3 + v4, 16 * v5 + v6)) ∧
    (∀ c1 c2 c3 v1 v2 v3,
      removeFirstChar '#' hex.data = [c1, c2, c3] →
      hexDigitVal c1 = some v1 → hexDigitVal c2 = some v2 →
      hexDigitVal c3 = some v3 →
      hexToRgb hex = (17 * v1, 17 * v2, 17 * v3)) ∧
    mixToWhite hex t =
      "rgb(" ++ intRepr (jsRound (((hexToRgb hex).1 : ℚ) +
          ((255 : ℚ) - ((hexToRgb hex).1 : ℚ)) * (1 - t))) ++ ", " ++
        intRepr (jsRound (((hexToRgb hex).2.1 : ℚ) +
          ((255 : ℚ) - ((hexToRgb hex).2.1 : ℚ)) * (1 - t))) ++ ", " ++
        intRepr (jsRound (((hexToRgb hex).2.2 : ℚ) +
          ((255 : ℚ) - ((hexToRgb hex).2.2 : ℚ)) * (1 - t))) ++ ")" ∧
    mixToWhite hex 0 = "rgb(255, 255, 255)" ∧
    mixToWhite hex 1 =
      "rgb(" ++ intRepr ((hexToRgb hex).1 : ℤ) ++ ", " ++
        intRepr ((hexToRgb hex).2.1 : ℤ) ++ ", " ++
        intRepr ((hexToRgb hex).2.2 : ℤ) ++ ")" := by
  refine ⟨?_, ?_, rfl, ?_, ?_⟩
  · intro c1 c2 c3 c4 c5 c6 v1 v2 v3 v4 v5 v6 hc h1 h2 h3 h4 h5 h6
    have b1 := hexDigitVal_lt_16 _ _ h1
    have b2 := hexDigitVal_lt_16 _ _ h2
    have b3 := hexDigitVal_lt_16 _ _ h3
    have b4 := hexDigitVal_lt_16 _ _ h4
    have b5 := hexDigitVal_lt_16 _ _ h5
    have b6 := hexDigitVal_lt_16 _ _ h6
    simp only [hexToRgb, hc, List.length_cons, List.length_nil]
    norm_num
    simp only [jsParseInt16, h1, hexAccum, h2, h3, h4, h5, h6, Option.getD_some,
      Prod.mk.injEq]
    refine ⟨?_, ?_, ?_⟩ <;> omega
  · intro c1 c2 c3 v1 v2 v3 hc h1 h2 h3
    have b1 := hexDigitVal_lt_16 _ _ h1
    have b2 := hexDigitVal_lt_16 _ _ h2
    have b3 := hexDigitVal_lt_16 _ _ h3
    simp only [hexToRgb, hc, List.length_cons, List.length_nil]
    norm_num
    simp only [List.flatMap_cons, List.flatMap_nil, List.cons_append,
      List.nil_append, jsParseInt16, h1, hexAccum, h2, h3, Option.getD_some,
      Prod.mk.injEq]
    have hN : 16 * (16 * (16 * (16 * (16 * (16 * 0 + v1) + v1) + v2) + v2) + v3) + v3
        = 1114112 * v1 + 4352 * v2 + 17 * v3 := by ring
    rw [hN]
    have hlt : 1114112 * v1 + 4352 * v2 + 17 * v3 < 4294967296 := by omega
    rw [Nat.mod_eq_of_lt hlt]
    have hd : (1114112 * v1 + 4352 * v2 + 17 * v3) / 65536 = 17 * v1 := by
      rw [show 1114112 * v1 + 4352 * v2 + 17 * v3 =
        65536 * (17 * v1) + (4352 * v2 + 17 * v3) from by ring]
      rw [Nat.mul_add_div (by norm_num), Nat.div_eq_of_lt (by omega)]
      ring
    have hg : (1114112 * v1 + 4352 * v2 + 17 * v3) / 256 = 256 * (17 * v1) + 17 * v2 := by
      rw [show 1114112 * v1 + 4352 * v2 + 17 * v3 =
        256 * (256 * (17 * v1) + 17 * v2) + 17 * v3 from by ring]
      rw [Nat.mul_add_div (by norm_num), Nat.div_eq_of_lt (by omega)]
      ring
    refine ⟨?_, ?_, ?_⟩
    · rw [hd, Nat.mod_eq_of_lt (by omega)]
    · rw [hg, Nat.mul_add_mod, Nat.mod_eq_of_lt (by omega)]
    · rw [show 1114112 * v1 + 4352 * v2 + 17 * v3 =
        256 * (4352 * v1 + 17 * v2) + 17 * v3 from by ring]
      rw [Nat.mul_add_mod, Nat.mod_eq_of_lt (by omega)]
  · simp only [mixToWhite, jsRound_channel_at_zero]
    decide
  · simp only [mixToWhite, jsRound_channel_at_one]

/-- Witness for `C9_color_mixer` at the default base colour `#3b82f6` and
intensity `1/2`. -/
theorem C9_color_mixer_witness :
    removeFirstChar '#' "#3b82f6".data = ['3', 'b', '8', '2', 'f', '6'] ∧
    (0 : ℚ) ≤ 1 / 2 ∧ (1 : ℚ) / 2 ≤ 1 ∧
    hexToRgb "#3b82f6" = (59, 130, 246) ∧
    mixToWhite "#3b82f6" 0 = "rgb(255, 255, 255)" ∧
    mixToWhite "#3b82f6" 1 = "rgb(59, 130, 246)" := by
  have hc : removeFirstChar '#' "#3b82f6".data = ['3', 'b', '8', '2', 'f', '6'] := by
    decide
  have h := C9_color_mixer "#3b82f6" (1 / 2) (by norm_num) (by norm_num)
  have hrgb : hexToRgb "#3b82f6" = (59, 130, 246) := by
    have h6 := h.1 '3' 'b' '8' '2' 'f' '6' 3 11 8 2 15 6 hc (by decide) (by decide)
      (by decide) (by decide) (by decide) (by decide)
    simpa using h6
  refine ⟨hc, by norm_num, by norm_num, hrgb, h.2.2.2.1, ?_⟩
  have h1 := h.2.2.2.2
  rw [hrgb] at h1
  rw [h1]
  decide

/-!
Calendar arithmetic: day-count lemmas for the civil-date model.
-/

theorem daysInMonth_bounds (y : ℤ) (m : ℕ) :
    28 ≤ daysInMonth y m ∧ daysInMonth y m ≤ 31 := by
  rcases m with _|_|_|_|_|_|_|_|_|_|_|m <;>
    simp only [daysInMonth] <;>
    first
    | omega
    | (split <;> omega)

theorem daysBeforeMonth_succ (y : ℤ) (m : ℕ) :
    daysBeforeMonth y (m + 1) = daysBeforeMonth y m + daysInMonth y m := by
  unfold daysBeforeMonth
  rw [List.range_succ, List.foldl_append]
  rfl

theorem daysBeforeMonth_mono (y : ℤ) (m1 m2 : ℕ) (h : m1 ≤ m2) :
    daysBeforeMonth y m1 ≤ daysBeforeMonth y m2 := by
  induction h with
  | refl => exact le_rfl
  | step h2 ih =>
      rw [daysBeforeMonth_succ]
      omega

theorem daysBeforeMonth_twelve (y : ℤ) :
    daysBeforeMonth y 12 = 365 + (if isLeap y then 1 else 0) := by
  have hr : List.range 12 = [0, 1, 2, 3, 4, 5, 6, 7, 8, 9, 10, 11] := by decide
  by_cases h : isLeap y = true
  · simp [daysBeforeMonth, hr, daysInMonth, h]
  · simp [daysBeforeMonth, hr, daysInMonth, h]

theorem daysBeforeYear_succ (y : ℤ) :
    daysBeforeYear (y + 1) = daysBeforeYear y + 365 + (if isLeap y then 1 else 0) := by
  by_cases h : isLeap y = true
  · rw [if_pos h]
    unfold isLeap at h
    simp only [Bool.or_eq_true, Bool.and_eq_true, decide_eq_true_eq] at h
    unfold daysBeforeYear leapsBefore
    omega
  · rw [if_neg h]
    unfold isLeap at h
    simp only [Bool.or_eq_true, Bool.and_eq_true, decide_eq_true_eq] at h
    push_neg at h
    unfold daysBeforeYear leapsBefore
    omega

theorem daysBeforeYear_add_le (y : ℤ) (k : ℕ) :
    daysBeforeYear y + 365 * k ≤ daysBeforeYear (y + k) := by
  induction k with
  | zero => simp
  | succ n ih =>
      have hs := daysBeforeYear_succ (y + n)
      have : ((n + 1 : ℕ) : ℤ) = (n : ℤ) + 1 := by push_cast; ring
      rw [this, ← add_assoc]
      split at hs <;> omega

theorem daysBeforeYear_mono (y1 y2 : ℤ) (h : y1 ≤ y2) :
    daysBeforeYear y1 ≤ daysBeforeYear y2 := by
  have hk := daysBeforeYear_add_le y1 (y2 - y1).toNat
  have hc : ((y2 - y1).toNat : ℤ) = y2 - y1 := by omega
  rw [hc] at hk
  have : y1 + (y2 - y1) = y2 := by ring
  rw [this] at hk
  omega

theorem daysBeforeYear_succ_le (y1 y2 : ℤ) (h : y1 < y2) :
    daysBeforeYear y1 + 365 ≤ daysBeforeYear y2 := by
  have h1 := daysBeforeYear_succ y1
  have h2 := daysBeforeYear_mono (y1 + 1) y2 (by omega)
  split at h1 <;> omega

theorem dayNumber_def (dt : CivilDate) :
    dayNumber dt = daysBeforeYear dt.year + daysBeforeMonth dt.year dt.month + dt.day - 1 :=
  rfl

theorem ValidDate_mk (y : ℤ) (m d : ℕ) :
    ValidDate ⟨y, m, d⟩ ↔ m < 12 ∧ 1 ≤ d ∧ d ≤ daysInMonth y m := Iff.rfl

theorem dayNumber_mk (y : ℤ) (m d : ℕ) :
    dayNumber ⟨y, m, d⟩ = daysBeforeYear y + daysBeforeMonth y m + d - 1 := rfl

theorem succDate_spec (dt : CivilDate) (h : ValidDate dt) :
    ValidDate (succDate dt) ∧ dayNumber (succDate dt) = dayNumber dt + 1 := by
  obtain ⟨hm, hd1, hd2⟩ := h
  unfold succDate
  by_cases hlt : dt.day < daysInMonth dt.year dt.month
  · rw [if_pos hlt, ValidDate_mk, dayNumber_mk, dayNumber_def]
    refine ⟨⟨hm, by omega, by omega⟩, by omega⟩
  · rw [if_neg hlt]
    by_cases hm2 : dt.month + 1 < 12
    · rw [if_pos hm2, ValidDate_mk, dayNumber_mk, dayNumber_def]
      have hb := daysInMonth_bounds dt.year (dt.month + 1)
      have hs := daysBeforeMonth_succ dt.year dt.month
      refine ⟨⟨hm2, by omega, by omega⟩, by omega⟩
    · rw [if_neg hm2, ValidDate_mk, dayNumber_mk, dayNumber_def]
      have h11 : dt.month = 11 := by omega
      have hdim : daysInMonth dt.year 11 = 31 := rfl
      have hdim0 : daysInMonth (dt.year + 1) 0 = 31 := rfl
      have h12 := daysBeforeMonth_twelve dt.year
      have hy := daysBeforeYear_succ dt.year
      have hs := daysBeforeMonth_succ dt.year 11
      norm_num at hs
      have hb0 : daysBeforeMonth (dt.year + 1) 0 = 0 := rfl
      rw [h11] at hd2 hlt ⊢
      by_cases hL : isLeap dt.year = true <;>
        simp [hL] at hy h12 <;>
        exact ⟨⟨by omega, by omega, by omega⟩, by omega⟩

theorem predDate_spec (dt : CivilDate) (h : ValidDate dt) :
    ValidDate (predDate dt) ∧ dayNumber (predDate dt) = dayNumber dt - 1 := by
  obtain ⟨hm, hd1, hd2⟩ := h
  unfold predDate
  by_cases hlt : 1 < dt.day
  · rw [if_pos hlt, ValidDate_mk, dayNumber_mk, dayNumber_def]
    refine ⟨⟨hm, by omega, by omega⟩, by omega⟩
  · rw [if_neg hlt]
    by_cases hm0 : dt.month = 0
    · rw [if_pos hm0, ValidDate_mk, dayNumber_mk, dayNumber_def]
      have hdim : daysInMonth (dt.year - 1) 11 = 31 := rfl
      have h12 := daysBeforeMonth_twelve (dt.year - 1)
      have hy := daysBeforeYear_succ (dt.year - 1)
      have hs := daysBeforeMonth_succ (dt.year - 1) 11
      norm_num at hs
      have hb0 : daysBeforeMonth dt.year 0 = 0 := rfl
      rw [show dt.year - 1 + 1 = dt.year from by ring] at hy
      rw [hm0]
      by_cases hL : isLeap (dt.year - 1) = true <;>
        simp [hL] at hy h12 <;>
        exact ⟨⟨by omega, by omega, by omega⟩, by omega⟩
    · rw [if_neg hm0, ValidDate_mk, dayNumber_mk, dayNumber_def]
      have hb := daysInMonth_bounds dt.year (dt.month - 1)
      have hs := daysBeforeMonth_succ dt.year (dt.month - 1)
      rw [show dt.month - 1 + 1 = dt.month from by omega] at hs
      refine ⟨⟨by omega, by omega, by omega⟩, by omega⟩

theorem succDate_iter_spec (dt : CivilDate) (h : ValidDate dt) (n : ℕ) :
    ValidDate (succDate^[n] dt) ∧ dayNumber (succDate^[n] dt) = dayNumber dt + n := by
  induction n with
  | zero => refine ⟨?_, ?_⟩ <;> simp [h]
  | succ k ih =>
      rw [Function.iterate_succ_apply']
      have hs := succDate_spec _ ih.1
      refine ⟨hs.1, ?_⟩
      rw [hs.2, ih.2]
      push_cast
      ring

theorem predDate_iter_spec (dt : CivilDate) (h : ValidDate dt) (n : ℕ) :
    ValidDate (predDate^[n] dt) ∧ dayNumber (predDate^[n] dt) = dayNumber dt - n := by
  induction n with
  | zero => refine ⟨?_, ?_⟩ <;> simp [h]
  | succ k ih =>
      rw [Function.iterate_succ_apply']
      have hs := predDate_spec _ ih.1
      refine ⟨hs.1, ?_⟩
      rw [hs.2, ih.2]
      push_cast
      ring

theorem addDays_spec (dt : CivilDate) (h : ValidDate dt) (n : ℤ) :
    ValidDate (addDays dt n) ∧ dayNumber (addDays dt n) = dayNumber dt + n := by
  unfold addDays
  by_cases hn : 0 ≤ n
  · rw [if_pos hn]
    have hs := succDate_iter_spec dt h n.toNat
    refine ⟨hs.1, ?_⟩
    rw [hs.2]
    omega
  · rw [if_neg hn]
    have hs := predDate_iter_spec dt h (-n).toNat
    refine ⟨hs.1, ?_⟩
    rw [hs.2]
    omega

theorem getDay_intCast (dt : CivilDate) :
    (getDay dt : ℤ) = (dayNumber dt + 6) % 7 := by
  unfold getDay
  rw [Int.toNat_of_nonneg (Int.emod_nonneg _ (by norm_num))]

theorem dayNumber_month_bounds (dt : CivilDate) (h : ValidDate dt) :
    daysBeforeYear dt.year + daysBeforeMonth dt.year dt.month ≤ dayNumber dt ∧
    dayNumber dt ≤ daysBeforeYear dt.year + daysBeforeMonth dt.year dt.month +
      daysInMonth dt.year dt.month - 1 := by
  obtain ⟨hm, h1, h2⟩ := h
  rw [dayNumber_def]
  omega

theorem dayNumber_year_bounds (dt : CivilDate) (h : ValidDate dt) :
    daysBeforeYear dt.year ≤ dayNumber dt ∧
    dayNumber dt < daysBeforeYear (dt.year + 1) := by
  obtain ⟨hm, h1, h2⟩ := h
  have hsucc := daysBeforeMonth_succ dt.year dt.month
  have hmono := daysBeforeMonth_mono dt.year (dt.month + 1) 12 (by omega)
  have h12 := daysBeforeMonth_twelve dt.year
  have hy := daysBeforeYear_succ dt.year
  rw [dayNumber_def]
  by_cases hL : isLeap dt.year = true <;> simp [hL] at h12 hy <;> omega

theorem dayNumber_inj (a b : CivilDate) (ha : ValidDate a) (hb : ValidDate b)
    (h : dayNumber a = dayNumber b) : a = b := by
  have hya := dayNumber_year_bounds a ha
  have hyb := dayNumber_year_bounds b hb
  have hyear : a.year = b.year := by
    by_contra hne
    rcases lt_or_gt_of_ne hne with hlt | hlt
    · have := daysBeforeYear_mono (a.year + 1) b.year (by omega)
      omega
    · have := daysBeforeYear_mono (b.year + 1) a.year (by omega)
      omega
  have hma := dayNumber_month_bounds a ha
  have hmb := dayNumber_month_bounds b hb
  rw [hyear] at hma
  have hmonth : a.month = b.month := by
    by_contra hne
    rcases Nat.lt_or_ge a.month b.month with hlt | hge
    · have hs := daysBeforeMonth_succ b.year a.month
      have hmono := daysBeforeMonth_mono b.year (a.month + 1) b.month (by omega)
      have hblo := (daysInMonth_bounds b.year a.month).1
      omega
    · have hlt2 : b.month < a.month := by omega
      have hs := daysBeforeMonth_succ b.year b.month
      have hmono := daysBeforeMonth_mono b.year (b.month + 1) a.month (by omega)
      have hblo := (daysInMonth_bounds b.year b.month).1
      omega
  have hday : a.day = b.day := by
    rw [dayNumber_def, dayNumber_def, hyear, hmonth] at h
    omega
  obtain ⟨ya, ma, da⟩ := a
  obtain ⟨yb, mb, db⟩ := b
  congr 1

theorem daysBeforeMonth_le_335 (y : ℤ) (m : ℕ) (hm : m < 12) :
    daysBeforeMonth y m ≤ 335 := by
  have hmono := daysBeforeMonth_mono y m 11 (by omega)
  have hs := daysBeforeMonth_succ y 11
  norm_num at hs
  have h12 := daysBeforeMonth_twelve y
  have hdim : daysInMonth y 11 = 31 := rfl
  by_cases hL : isLeap y = true <;> simp [hL] at h12 <;> omega

theorem daysBeforeMonth_ge_31 (y : ℤ) (m : ℕ) (hm : 1 ≤ m) :
    31 ≤ daysBeforeMonth y m := by
  have hmono := daysBeforeMonth_mono y 1 m hm
  have hs : daysBeforeMonth y 1 = 31 := rfl
  omega

/-- A valid date whose day number lies within six days of the grid month's
own span, and whose month is the grid month, must belong to the grid year:
the same month of a different year is at least a year of days away. -/
theorem year_eq_of_month_near (dt : CivilDate) (y : ℤ) (m : ℕ)
    (hdt : ValidDate dt) (hm : m < 12) (hmonth : dt.month = m)
    (hlo : daysBeforeYear y + daysBeforeMonth y m - 6 ≤ dayNumber dt)
    (hhi : dayNumber dt ≤ daysBeforeYear y + daysBeforeMonth y m +
      daysInMonth y m - 1 + 6) :
    dt.year = y := by
  by_contra hne
  have hmb := dayNumber_month_bounds dt hdt
  rw [hmonth] at hmb
  have hd1 := daysBeforeMonth_le_335 dt.year m hm
  have hd2 := daysBeforeMonth_le_335 y m hm
  have hb1 := daysInMonth_bounds dt.year m
  have hb2 := daysInMonth_bounds y m
  rcases lt_or_gt_of_ne hne with hlt | hlt
  · have hD := daysBeforeYear_succ_le dt.year y hlt
    by_cases h0 : m = 0
    · subst h0
      have hz1 : daysBeforeMonth dt.year 0 = 0 := rfl
      have hz2 : daysBeforeMonth y 0 = 0 := rfl
      omega
    · have hg1 := daysBeforeMonth_ge_31 dt.year m (by omega)
      have hg2 := daysBeforeMonth_ge_31 y m (by omega)
      omega
  · have hD := daysBeforeYear_succ_le y dt.year hlt
    by_cases h0 : m = 0
    · subst h0
      have hz1 : daysBeforeMonth dt.year 0 = 0 := rfl
      have hz2 : daysBeforeMonth y 0 = 0 := rfl
      omega
    · have hg1 := daysBeforeMonth_ge_31 dt.year m (by omega)
      have hg2 := daysBeforeMonth_ge_31 y m (by omega)
      omega

theorem weekStartTarget_cases (ws : WeekStart) :
    weekStartTarget ws = 0 ∨ weekStartTarget ws = 1 := by
  cases ws
  · exact Or.inl rfl
  · exact Or.inr rfl

theorem weekEndTarget_intCast (ws : WeekStart) :
    (weekEndTarget ws : ℤ) = ((weekStartTarget ws : ℤ) + 6) % 7 := by
  cases ws <;> rfl

theorem startOfWeek_spec (d : CivilDate) (ws : WeekStart) (hd : ValidDate d) :
    ValidDate (startOfWeek d ws) ∧
    dayNumber d - 6 ≤ dayNumber (startOfWeek d ws) ∧
    dayNumber (startOfWeek d ws) ≤ dayNumber d ∧
    (dayNumber (startOfWeek d ws) + 6) % 7 = (weekStartTarget ws : ℤ) := by
  unfold startOfWeek
  have hg := getDay_intCast d
  have ht := weekStartTarget_cases ws
  have hA := addDays_spec d hd
    (-(((getDay d : ℤ) - (weekStartTarget ws : ℤ) + 7) % 7))
  refine ⟨hA.1, ?_, ?_, ?_⟩ <;> rw [hA.2] <;>
    rcases ht with ht | ht <;> rw [ht] <;> push_cast <;> omega

theorem endOfWeek_spec (d : CivilDate) (ws : WeekStart) (hd : ValidDate d) :
    ValidDate (endOfWeek d ws) ∧
    dayNumber d ≤ dayNumber (endOfWeek d ws) ∧
    dayNumber (endOfWeek d ws) ≤ dayNumber d + 6 ∧
    (dayNumber (endOfWeek d ws) + 6) % 7 = ((weekStartTarget ws : ℤ) + 6) % 7 := by
  unfold endOfWeek
  have hg := getDay_intCast d
  have ht := weekStartTarget_cases ws
  have hw := weekEndTarget_intCast ws
  have hA := addDays_spec d hd
    (((weekEndTarget ws : ℤ) - (getDay d : ℤ) + 7) % 7)
  refine ⟨hA.1, ?_, ?_, ?_⟩
  · rw [hA.2]
    omega
  · rw [hA.2]
    omega
  · rw [hA.2]
    rcases ht with ht | ht <;> rw [ht] at hw ⊢ <;> push_cast at hw ⊢ <;> omega

theorem firstOfMonth_valid (y : ℤ) (m : ℕ) (hm : m < 12) :
    ValidDate ⟨y, m, 1⟩ := by
  rw [ValidDate_mk]
  have := daysInMonth_bounds y m
  omega

theorem endOfMonth_valid (y : ℤ) (m : ℕ) (hm : m < 12) :
    ValidDate (endOfMonth ⟨y, m, 1⟩) := by
  unfold endOfMonth
  rw [ValidDate_mk]
  have := daysInMonth_bounds y m
  simp only
  omega

theorem endOfMonth_dayNumber (y : ℤ) (m : ℕ) :
    dayNumber (endOfMonth ⟨y, m, 1⟩) = dayNumber ⟨y, m, 1⟩ + daysInMonth y m - 1 := by
  unfold endOfMonth
  rw [dayNumber_mk]
  simp only
  rw [dayNumber_mk]
  omega

theorem addDays_zero (dt : CivilDate) : addDays dt 0 = dt := by
  simp [addDays]

theorem mem_monthGridDates (y : ℤ) (m : ℕ) (ws : WeekStart) (hm : m < 12)
    (dt : CivilDate) :
    dt ∈ monthGridDates y m ws ↔
      ValidDate dt ∧
      dayNumber (startOfWeek ⟨y, m, 1⟩ ws) ≤ dayNumber dt ∧
      dayNumber dt ≤ dayNumber (endOfWeek (endOfMonth ⟨y, m, 1⟩) ws) := by
  have hfv := firstOfMonth_valid y m hm
  have hev := endOfMonth_valid y m hm
  have hss := startOfWeek_spec ⟨y, m, 1⟩ ws hfv
  have hes := endOfWeek_spec (endOfMonth ⟨y, m, 1⟩) ws hev
  have hgsv := hss.1
  have hgev := hes.1
  constructor
  · intro hmem
    rcases List.mem_map.mp hmem with ⟨i, hi, rfl⟩
    rcases List.mem_range.mp hi with hilt
    have hA := addDays_spec _ hgsv (i : ℤ)
    refine ⟨hA.1, by rw [hA.2]; omega, ?_⟩
    rw [hA.2]
    omega
  · rintro ⟨hv, hlo, hhi⟩
    have hi : (dayNumber dt - dayNumber (startOfWeek ⟨y, m, 1⟩ ws)).toNat <
        (dayNumber (endOfWeek (endOfMonth ⟨y, m, 1⟩) ws) + 1 -
          dayNumber (startOfWeek ⟨y, m, 1⟩ ws)).toNat := by
      omega
    refine List.mem_map.mpr
      ⟨(dayNumber dt - dayNumber (startOfWeek ⟨y, m, 1⟩ ws)).toNat,
        List.mem_range.mpr hi, ?_⟩
    have hA := addDays_spec _ hgsv
      (((dayNumber dt - dayNumber (startOfWeek ⟨y, m, 1⟩ ws)).toNat : ℕ) : ℤ)
    refine dayNumber_inj _ _ hA.1 hv ?_
    rw [hA.2]
    omega

/-!
Decimal rendering: injectivity of the ISO date strings.
-/

theorem natDigitsAux_zero (f : ℕ) : natDigitsAux f 0 = [] := by
  cases f with
  | zero => rfl
  | succ g => rw [natDigitsAux, if_pos rfl]

theorem natDigitsAux_stable (n : ℕ) : ∀ f1 f2, n ≤ f1 → n ≤ f2 →
    natDigitsAux f1 n = natDigitsAux f2 n := by
  induction n using Nat.strong_induction_on with
  | _ n ih =>
      intro f1 f2 h1 h2
      by_cases hz : n = 0
      · subst hz
        rw [natDigitsAux_zero, natDigitsAux_zero]
      · obtain ⟨g1, rfl⟩ : ∃ g1, f1 = g1 + 1 := ⟨f1 - 1, by omega⟩
        obtain ⟨g2, rfl⟩ : ∃ g2, f2 = g2 + 1 := ⟨f2 - 1, by omega⟩
        rw [natDigitsAux, natDigitsAux, if_neg hz, if_neg hz]
        rw [ih (n / 10) (by omega) g1 (n / 10) (by omega) (by omega),
          ih (n / 10) (by omega) g2 (n / 10) (by omega) (by omega)]

theorem natDigits_eq (n : ℕ) (h : n ≠ 0) :
    natDigits n = n % 10 :: natDigits (n / 10) := by
  unfold natDigits
  obtain ⟨k, hk⟩ : ∃ k, n = k + 1 := ⟨n - 1, by omega⟩
  rw [hk, natDigitsAux, if_neg (by omega)]
  rw [natDigitsAux_stable ((k + 1) / 10) k ((k + 1) / 10) (by omega) (by omega)]

theorem natVal_natDigits (n : ℕ) : natVal (natDigits n) = n := by
  induction n using Nat.strong_induction_on with
  | _ n ih =>
      by_cases hz : n = 0
      · subst hz
        rfl
      · rw [natDigits_eq n hz]
        unfold natVal
        rw [ih (n / 10) (by omega)]
        omega

theorem natDigits_lt_ten (n : ℕ) : ∀ x ∈ natDigits n, x < 10 := by
  induction n using Nat.strong_induction_on with
  | _ n ih =>
      by_cases hz : n = 0
      · subst hz
        intro x hx
        cases hx
      · rw [natDigits_eq n hz]
        intro x hx
        rcases List.mem_cons.mp hx with h | h
        · omega
        · exact ih (n / 10) (by omega) x h

theorem natDigits_ne_nil (n : ℕ) (h : n ≠ 0) : natDigits n ≠ [] := by
  rw [natDigits_eq n h]
  exact List.cons_ne_nil _ _

theorem digitChar_inj_aux : ∀ a < 10, ∀ b < 10,
    digitChar a = digitChar b → a = b := by decide

theorem digitChar_ne_dash : ∀ a < 10, digitChar a ≠ '-' := by decide

theorem map_digitChar_inj (l1 l2 : List ℕ) (h1 : ∀ x ∈ l1, x < 10)
    (h2 : ∀ x ∈ l2, x < 10) (h : l1.map digitChar = l2.map digitChar) :
    l1 = l2 := by
  induction l1 generalizing l2 with
  | nil =>
      cases l2 with
      | nil => rfl
      | cons b bs => simp at h
  | cons a as ih =>
      cases l2 with
      | nil => simp at h
      | cons b bs =>
          simp only [List.map_cons, List.cons.injEq] at h
          have ha : a = b := digitChar_inj_aux a (h1 a (by simp)) b (h2 b (by simp)) h.1
          rw [ha, ih bs (fun x hx => h1 x (List.mem_cons_of_mem a hx))
            (fun x hx => h2 x (List.mem_cons_of_mem b hx)) h.2]

theorem str_data_append (s t : String) : (s ++ t).data = s.data ++ t.data := rfl

theorem natRepr_data_zero : (natRepr 0).data = ['0'] := by decide

theorem natRepr_data (n : ℕ) (h : n ≠ 0) :
    (natRepr n).data = ((natDigits n).map digitChar).reverse := by
  unfold natRepr
  rw [if_neg h]

theorem natRepr_inj (a b : ℕ) (h : natRepr a = natRepr b) : a = b := by
  have hd := congrArg String.data h
  by_cases za : a = 0 <;> by_cases zb : b = 0
  · omega
  · subst za
    rw [natRepr_data_zero, natRepr_data b zb] at hd
    have : (natDigits b).map digitChar = ['0'] := by
      have := congrArg List.reverse hd
      simpa using this.symm
    have hb : natDigits b = [0] := by
      have h0 : ((0 : ℕ) :: []).map digitChar = ['0'] := rfl
      exact map_digitChar_inj _ _ (natDigits_lt_ten b) (by intro x hx; simp at hx; omega)
        (by rw [this, ← h0])
    have := natVal_natDigits b
    rw [hb] at this
    simp [natVal] at this
    omega
  · subst zb
    rw [natRepr_data_zero, natRepr_data a za] at hd
    have : (natDigits a).map digitChar = ['0'] := by
      have := congrArg List.reverse hd
      simpa using this
    have hb : natDigits a = [0] := by
      have h0 : ((0 : ℕ) :: []).map digitChar = ['0'] := rfl
      exact map_digitChar_inj _ _ (natDigits_lt_ten a) (by intro x hx; simp at hx; omega)
        (by rw [this, ← h0])
    have := natVal_natDigits a
    rw [hb] at this
    simp [natVal] at this
    omega
  · rw [natRepr_data a za, natRepr_data b zb] at hd
    have hmap : (natDigits a).map digitChar = (natDigits b).map digitChar :=
      List.reverse_injective hd
    have := map_digitChar_inj _ _ (natDigits_lt_ten a) (natDigits_lt_ten b) hmap
    have hva := natVal_natDigits a
    have hvb := natVal_natDigits b
    rw [this] at hva
    omega

theorem natRepr_data_ne_nil (n : ℕ) : (natRepr n).data ≠ [] := by
  by_cases h : n = 0
  · subst h
    rw [natRepr_data_zero]
    exact List.cons_ne_nil _ _
  · rw [natRepr_data n h]
    simpa using natDigits_ne_nil n h

theorem natRepr_data_digits (n : ℕ) :
    ∀ c ∈ (natRepr n).data, ∃ k, k < 10 ∧ c = digitChar k := by
  by_cases h : n = 0
  · subst h
    rw [natRepr_data_zero]
    intro c hc
    simp at hc
    exact ⟨0, by omega, by rw [hc]; rfl⟩
  · rw [natRepr_data n h]
    intro c hc
    rw [List.mem_reverse] at hc
    rcases List.mem_map.mp hc with ⟨k, hk, rfl⟩
    exact ⟨k, natDigits_lt_ten n k hk, rfl⟩

theorem intRepr_inj (a b : ℤ) (h : intRepr a = intRepr b) : a = b := by
  unfold intRepr at h
  by_cases ha : a < 0 <;> by_cases hb : b < 0
  · rw [if_pos ha, if_pos hb] at h
    have hd := congrArg String.data h
    rw [str_data_append, str_data_append] at hd
    simp only [List.cons.injEq] at hd
    have : natRepr (-a).toNat = natRepr (-b).toNat := by
      apply congrArg String.mk
      simpa using hd
    have := natRepr_inj _ _ this
    omega
  · rw [if_pos ha, if_neg hb] at h
    exfalso
    have hd := congrArg String.data h
    rw [str_data_append] at hd
    rcases List.exists_cons_of_ne_nil (natRepr_data_ne_nil b.toNat) with ⟨c, cs, hcs⟩
    rw [hcs] at hd
    have hdash : ('-' : Char) = c := by
      have : ('-' : Char) :: (natRepr (-a).toNat).data = c :: cs := by
        simpa using hd
      exact (List.cons.injEq _ _ _ _).mp this |>.1
    have := natRepr_data_digits b.toNat c (by rw [hcs]; simp)
    rcases this with ⟨k, hk, hck⟩
    exact digitChar_ne_dash k hk (by rw [← hck, ← hdash])
  · rw [if_neg ha, if_pos hb] at h
    exfalso
    have hd := congrArg String.data h
    rw [str_data_append] at hd
    rcases List.exists_cons_of_ne_nil (natRepr_data_ne_nil a.toNat) with ⟨c, cs, hcs⟩
    rw [hcs] at hd
    have hdash : c = ('-' : Char) := by
      have : c :: cs = ('-' : Char) :: (natRepr (-b).toNat).data := by
        simpa using hd
      exact (List.cons.injEq _ _ _ _).mp this |>.1
    have := natRepr_data_digits a.toNat c (by rw [hcs]; simp)
    rcases this with ⟨k, hk, hck⟩
    exact digitChar_ne_dash k hk (by rw [← hck, hdash])
  · rw [if_neg ha, if_neg hb] at h
    have := natRepr_inj _ _ h
    omega

theorem pad_data_lt_ten (n : ℕ) (h : n < 10) :
    (pad n).data = ['0', digitChar n] := by
  unfold pad
  rw [if_pos h, str_data_append]
  by_cases hz : n = 0
  · subst hz
    rw [natRepr_data_zero]
    rfl
  · rw [natRepr_data n hz]
    rw [natDigits_eq n hz, Nat.mod_eq_of_lt h, Nat.div_eq_of_lt h]
    rw [show natDigits 0 = [] from rfl]
    rfl

theorem pad_data_ge_ten (n : ℕ) (h10 : 10 ≤ n) (h100 : n < 100) :
    (pad n).data = [digitChar (n / 10), digitChar (n % 10)] := by
  unfold pad
  rw [if_neg (by omega)]
  rw [natRepr_data n (by omega)]
  rw [natDigits_eq n (by omega)]
  rw [natDigits_eq (n / 10) (by omega)]
  rw [Nat.mod_eq_of_lt (show n / 10 < 10 by omega)]
  rw [show n / 10 / 10 = 0 from by omega]
  rw [show natDigits 0 = [] from rfl]
  rfl

theorem pad_data_length (n : ℕ) (h : n < 100) : (pad n).data.length = 2 := by
  by_cases h10 : n < 10
  · rw [pad_data_lt_ten n h10]
    rfl
  · rw [pad_data_ge_ten n (by omega) h]
    rfl

theorem pad_inj (a b : ℕ) (ha : a < 100) (hb : b < 100)
    (h : (pad a).data = (pad b).data) : a = b := by
  by_cases ha10 : a < 10 <;> by_cases hb10 : b < 10
  · rw [pad_data_lt_ten a ha10, pad_data_lt_ten b hb10] at h
    simp only [List.cons.injEq, and_true, true_and] at h
    exact digitChar_inj_aux a ha10 b hb10 h
  · rw [pad_data_lt_ten a ha10, pad_data_ge_ten b (by omega) hb] at h
    simp only [List.cons.injEq, and_true] at h
    have h0 : ('0' : Char) = digitChar 0 := rfl
    have := digitChar_inj_aux 0 (by omega) (b / 10) (by omega) (by rw [← h0]; exact h.1)
    omega
  · rw [pad_data_ge_ten a (by omega) ha, pad_data_lt_ten b hb10] at h
    simp only [List.cons.injEq, and_true] at h
    have h0 : ('0' : Char) = digitChar 0 := rfl
    have := digitChar_inj_aux (a / 10) (by omega) 0 (by omega) (by rw [← h0]; exact h.1)
    omega
  · rw [pad_data_ge_ten a (by omega) ha, pad_data_ge_ten b (by omega) hb] at h
    simp only [List.cons.injEq, and_true] at h
    have h1 := digitChar_inj_aux (a / 10) (by omega) (b / 10) (by omega) h.1
    have h2 := digitChar_inj_aux (a % 10) (by omega) (b % 10) (by omega) h.2
    omega

theorem toISO_data (dt : CivilDate) :
    (toISO dt).data = (intRepr dt.year).data ++
      ('-' :: (pad (dt.month + 1)).data) ++ ('-' :: (pad dt.day).data) := by
  unfold toISO
  rw [str_data_append, str_data_append, str_data_append, str_data_append]
  rw [show ("-" : String).data = ['-'] from rfl]
  simp [List.append_assoc]

theorem toISO_inj (a b : CivilDate) (ha : ValidDate a) (hb : ValidDate b)
    (h : toISO a = toISO b) : a = b := by
  obtain ⟨ham, had1, had2⟩ := ha
  obtain ⟨hbm, hbd1, hbd2⟩ := hb
  have hadim := (daysInMonth_bounds a.year a.month).2
  have hbdim := (daysInMonth_bounds b.year b.month).2
  have hd := congrArg String.data h
  rw [toISO_data, toISO_data] at hd
  rw [List.append_assoc, List.append_assoc] at hd
  have hlen : (('-' :: (pad (a.month + 1)).data) ++ ('-' :: (pad a.day).data)).length =
      (('-' :: (pad (b.month + 1)).data) ++ ('-' :: (pad b.day).data)).length := by
    simp only [List.length_append, List.length_cons]
    rw [pad_data_length (a.month + 1) (by omega), pad_data_length a.day (by omega),
      pad_data_length (b.month + 1) (by omega), pad_data_length b.day (by omega)]
  have hsplit := List.append_inj' hd hlen
  have hyear : a.year = b.year := by
    apply intRepr_inj
    apply congrArg String.mk
    exact (show (intRepr a.year).data = (intRepr b.year).data from hsplit.1)
  have hsuffix := hsplit.2
  simp only [List.cons_append, List.cons.injEq, true_and] at hsuffix
  have hsplit2 := List.append_inj hsuffix
    (by rw [pad_data_length (a.month + 1) (by omega), pad_data_length (b.month + 1) (by omega)])
  have hmonth : a.month = b.month := by
    have := pad_inj (a.month + 1) (b.month + 1) (by omega) (by omega) hsplit2.1
    omega
  have hday : a.day = b.day := by
    have hq := hsplit2.2
    simp only [List.cons.injEq, true_and] at hq
    exact pad_inj a.day b.day (by omega) (by omega) hq
  obtain ⟨ya, ma, da⟩ := a
  obtain ⟨yb, mb, db⟩ := b
  congr 1

theorem monthGridDates_eq (y : ℤ) (m : ℕ) (ws : WeekStart) :
    monthGridDates y m ws =
      List.map (fun (i : ℕ) => addDays (startOfWeek ⟨y, m, 1⟩ ws) (i : ℤ))
        (List.range (dayNumber (endOfWeek (endOfMonth ⟨y, m, 1⟩) ws) + 1 -
          dayNumber (startOfWeek ⟨y, m, 1⟩ ws)).toNat) := rfl

theorem monthGridDates_length (y : ℤ) (m : ℕ) (ws : WeekStart) :
    (monthGridDates y m ws).length =
      (dayNumber (endOfWeek (endOfMonth ⟨y, m, 1⟩) ws) + 1 -
        dayNumber (startOfWeek ⟨y, m, 1⟩ ws)).toNat := by
  unfold monthGridDates
  rw [List.length_map, List.length_range]

theorem monthDay_mem_buildMonthDays (y : ℤ) (m : ℕ) (ws : WeekStart)
    (hm : m < 12) (dt : CivilDate) (hv : ValidDate dt)
    (hy : dt.year = y) (hmth : dt.month = m) :
    (⟨toISO dt, true⟩ : MonthDay) ∈ buildMonthDays y m ws := by
  have hfv := firstOfMonth_valid y m hm
  have hev := endOfMonth_valid y m hm
  have hss := startOfWeek_spec ⟨y, m, 1⟩ ws hfv
  have hes := endOfWeek_spec (endOfMonth ⟨y, m, 1⟩) ws hev
  have heom := endOfMonth_dayNumber y m
  have hfirst : dayNumber ⟨y, m, 1⟩ =
      daysBeforeYear y + daysBeforeMonth y m + 1 - 1 := dayNumber_mk y m 1
  refine List.mem_map.mpr ⟨dt, ?_, by simp [hmth]⟩
  have hmb := dayNumber_month_bounds dt hv
  rw [hy, hmth] at hmb
  refine (mem_monthGridDates y m ws hm dt).mpr ⟨hv, ?_, ?_⟩
  · omega
  · omega

theorem monthGridDates_inMonth_facts (y : ℤ) (m : ℕ) (ws : WeekStart)
    (hm : m < 12) :
    ∀ dt ∈ monthGridDates y m ws, ValidDate dt ∧ (dt.month = m → dt.year = y) := by
  have hfv := firstOfMonth_valid y m hm
  have hev := endOfMonth_valid y m hm
  have hss := startOfWeek_spec ⟨y, m, 1⟩ ws hfv
  have hes := endOfWeek_spec (endOfMonth ⟨y, m, 1⟩) ws hev
  have heom := endOfMonth_dayNumber y m
  have hfirst : dayNumber ⟨y, m, 1⟩ =
      daysBeforeYear y + daysBeforeMonth y m + 1 - 1 := dayNumber_mk y m 1
  intro dt hmem
  obtain ⟨hv, hlo, hhi⟩ := (mem_monthGridDates y m ws hm dt).mp hmem
  refine ⟨hv, fun hmth => ?_⟩
  refine year_eq_of_month_near dt y m hv hm hmth ?_ ?_
  · omega
  · omega

/-- C6: for every year, 0-based month and week-start convention the month
grid's day sequence has length a multiple of 7, starts on the configured
week-start weekday, ends on the weekday immediately preceding it, contains
every calendar day of the owning month tagged `inMonth = true`, and every
grid day is a real date whose `inMonth` tag can only be true for the owning
month of the owning year (padding days belong to adjacent months). -/
theorem C6_month_grid (y : ℤ) (m : ℕ) (ws : WeekStart) (hm : m < 12) :
    (buildMonthDays y m ws).length % 7 = 0 ∧
    (∀ d0 ∈ (monthGridDates y m ws).head?, getDay d0 = weekStartTarget ws) ∧
    (∀ d1 ∈ (monthGridDates y m ws).getLast?,
      getDay d1 = (weekStartTarget ws + 6) % 7) ∧
    (∀ dt : CivilDate, ValidDate dt → dt.year = y → dt.month = m →
      (⟨toISO dt, true⟩ : MonthDay) ∈ buildMonthDays y m ws) ∧
    (∀ dt ∈ monthGridDates y m ws, ValidDate dt ∧ (dt.month = m → dt.year = y)) := by
  have hfv := firstOfMonth_valid y m hm
  have hev := endOfMonth_valid y m hm
  have hss := startOfWeek_spec ⟨y, m, 1⟩ ws hfv
  have hes := endOfWeek_spec (endOfMonth ⟨y, m, 1⟩) ws hev
  have heom := endOfMonth_dayNumber y m
  have hdim := daysInMonth_bounds y m
  have hfirst : dayNumber ⟨y, m, 1⟩ =
      daysBeforeYear y + daysBeforeMonth y m + 1 - 1 := dayNumber_mk y m 1
  refine ⟨?_, ?_, ?_, ?_, ?_⟩
  · rw [show (buildMonthDays y m ws).length = (monthGridDates y m ws).length from
      List.length_map _ _, monthGridDates_length]
    have h1 := hss.2.2.2
    have h2 := hes.2.2.2
    omega
  · intro d0 hd0
    have hn : (monthGridDates y m ws).length ≠ 0 := by
      intro hz
      rw [List.length_eq_zero.mp hz] at hd0
      cases hd0
    rw [monthGridDates_length] at hn
    obtain ⟨k, hk⟩ := Nat.exists_eq_succ_of_ne_zero hn
    have hdd : (monthGridDates y m ws).head? =
        some (addDays (startOfWeek ⟨y, m, 1⟩ ws) ((0 : ℕ) : ℤ)) := by
      rw [monthGridDates_eq, hk, List.range_succ_eq_map]
      rfl
    rw [hdd] at hd0
    have hd0e : d0 = addDays (startOfWeek ⟨y, m, 1⟩ ws) ((0 : ℕ) : ℤ) := by
      cases hd0
      rfl
    rw [hd0e, show ((0 : ℕ) : ℤ) = 0 from rfl, addDays_zero]
    have hgz := getDay_intCast (startOfWeek ⟨y, m, 1⟩ ws)
    have h1 := hss.2.2.2
    omega
  · intro d1 hd1
    have hn : (monthGridDates y m ws).length ≠ 0 := by
      intro hz
      rw [List.length_eq_zero.mp hz] at hd1
      cases hd1
    rw [monthGridDates_length] at hn
    obtain ⟨k, hk⟩ := Nat.exists_eq_succ_of_ne_zero hn
    have hdd : (monthGridDates y m ws).getLast? =
        some (addDays (startOfWeek ⟨y, m, 1⟩ ws) (k : ℤ)) := by
      rw [monthGridDates_eq, hk, List.range_succ, List.map_append]
      simp only [List.map_cons, List.map_nil]
      rw [List.getLast?_concat]
    rw [hdd] at hd1
    have hd1e : d1 = addDays (startOfWeek ⟨y, m, 1⟩ ws) (k : ℤ) := by
      cases hd1
      rfl
    have hA := addDays_spec _ hss.1 (k : ℤ)
    have hgz := getDay_intCast (addDays (startOfWeek ⟨y, m, 1⟩ ws) (k : ℤ))
    have h2 := hes.2.2.2
    have hcast : (((weekStartTarget ws + 6) % 7 : ℕ) : ℤ) =
        ((weekStartTarget ws : ℤ) + 6) % 7 := by
      push_cast
      rfl
    rw [hd1e]
    omega
  · intro dt hv hy hmth
    exact monthDay_mem_buildMonthDays y m ws hm dt hv hy hmth
  · exact monthGridDates_inMonth_facts y m ws hm

/-- Witness for `C6_month_grid`: the February 2025 grid with Monday start
has a week-multiple length and contains 2025-02-10 tagged in-month. -/
theorem C6_month_grid_witness :
    (1 : ℕ) < 12 ∧
    (buildMonthDays 2025 1 WeekStart.mon).length % 7 = 0 ∧
    (⟨toISO ⟨2025, 1, 10⟩, true⟩ : MonthDay) ∈ buildMonthDays 2025 1 WeekStart.mon := by
  have hc := C6_month_grid 2025 1 WeekStart.mon (by norm_num)
  exact ⟨by norm_num, hc.1, hc.2.2.2.1 ⟨2025, 1, 10⟩ (by decide) rfl rfl⟩

theorem nextMonth_lt_12 (p : ℤ × ℕ) (hp : p.2 < 12) : (nextMonth p).2 < 12 := by
  unfold nextMonth
  split
  · simpa using by omega
  · simp

theorem monthIndex_nextMonth (p : ℤ × ℕ) (hp : p.2 < 12) :
    monthIndex (nextMonth p) = monthIndex p + 1 := by
  unfold nextMonth monthIndex
  by_cases h : p.2 + 1 < 12
  · rw [if_pos h]
    show 12 * p.1 + ((p.2 + 1 : ℕ) : ℤ) = 12 * p.1 + (p.2 : ℤ) + 1
    push_cast
    ring
  · rw [if_neg h]
    show 12 * (p.1 + 1) + ((0 : ℕ) : ℤ) = 12 * p.1 + (p.2 : ℤ) + 1
    have h11 : p.2 = 11 := by omega
    rw [h11]
    push_cast
    ring

theorem nextMonth_iter (p : ℤ × ℕ) (hp : p.2 < 12) (j : ℕ) :
    (nextMonth^[j] p).2 < 12 ∧ monthIndex (nextMonth^[j] p) = monthIndex p + j := by
  induction j with
  | zero => simpa using hp
  | succ k ih =>
      rw [Function.iterate_succ_apply']
      refine ⟨nextMonth_lt_12 _ ih.1, ?_⟩
      rw [monthIndex_nextMonth _ ih.1, ih.2]
      push_cast
      ring

theorem pair_eq_of_monthIndex (p q : ℤ × ℕ) (hp : p.2 < 12) (hq : q.2 < 12)
    (h : monthIndex p = monthIndex q) : p = q := by
  unfold monthIndex at h
  exact Prod.ext (by omega) (by omega)

theorem buildMonths_eq (sy : ℤ) (sm : ℕ) (ey : ℤ) (em : ℕ) (ws : WeekStart) :
    buildMonths sy sm ey em ws =
      (List.range (monthIndex (ey, em) + 1 - monthIndex (sy, sm)).toNat).map
        (fun i =>
          { year := (nextMonth^[i] (sy, sm)).1
            month := (nextMonth^[i] (sy, sm)).2
            days := buildMonthDays (nextMonth^[i] (sy, sm)).1
              (nextMonth^[i] (sy, sm)).2 ws }) := rfl

theorem monthIndex_mk (y : ℤ) (m : ℕ) : monthIndex (y, m) = 12 * y + (m : ℤ) := rfl

/-- C7: for start and end months with start ≤ end, every calendar date in a
month between them appears, tagged in-month, in exactly one grid of the
built month sequence. -/
theorem C7_unique_inMonth (sy : ℤ) (sm : ℕ) (ey : ℤ) (em : ℕ) (ws : WeekStart)
    (d : CivilDate) (hsm : sm < 12) (hem : em < 12) (hd : ValidDate d)
    (h1 : monthIndex (sy, sm) ≤ monthIndex (d.year, d.month))
    (h2 : monthIndex (d.year, d.month) ≤ monthIndex (ey, em)) :
    (buildMonths sy sm ey em ws).countP
      (fun g => g.days.any (fun md => md.iso == toISO d && md.inMonth)) = 1 := by
  have hdm : d.month < 12 := hd.1
  rw [buildMonths_eq, List.countP_map]
  have hi0lt : (monthIndex (d.year, d.month) - monthIndex (sy, sm)).toNat <
      (monthIndex (ey, em) + 1 - monthIndex (sy, sm)).toNat := by
    simp only [monthIndex_mk] at h1 h2 ⊢
    omega
  have key : ∀ i ∈ List.range (monthIndex (ey, em) + 1 - monthIndex (sy, sm)).toNat,
      ((fun g : MonthInfo => g.days.any (fun md => md.iso == toISO d && md.inMonth)) ∘
        fun i =>
          ({ year := (nextMonth^[i] (sy, sm)).1
             month := (nextMonth^[i] (sy, sm)).2
             days := buildMonthDays (nextMonth^[i] (sy, sm)).1
               (nextMonth^[i] (sy, sm)).2 ws } : MonthInfo)) i =
      (i == (monthIndex (d.year, d.month) - monthIndex (sy, sm)).toNat) := by
    intro i hi
    have hit := nextMonth_iter (sy, sm) hsm i
    simp only [Function.comp_apply]
    by_cases hieq : i = (monthIndex (d.year, d.month) - monthIndex (sy, sm)).toNat
    · subst hieq
      have hpair : nextMonth^[(monthIndex (d.year, d.month) -
          monthIndex (sy, sm)).toNat] (sy, sm) = (d.year, d.month) := by
        apply pair_eq_of_monthIndex _ _ hit.1 hdm
        rw [hit.2]
        simp only [monthIndex_mk] at h1 h2 ⊢
        omega
      rw [hpair]
      simp only [beq_self_eq_true]
      rw [List.any_eq_true]
      refine ⟨⟨toISO d, true⟩, ?_, ?_⟩
      · exact monthDay_mem_buildMonthDays d.year d.month ws hdm d hd rfl rfl
      · simp
    · have hRHS : (i == (monthIndex (d.year, d.month) -
          monthIndex (sy, sm)).toNat) = false := by
        simp [hieq]
      rw [hRHS, Bool.eq_false_iff]
      intro hany
      rcases List.any_eq_true.mp hany with ⟨md, hmd, hcond⟩
      rcases List.mem_map.mp hmd with ⟨dt, hdtmem, rfl⟩
      simp only [Bool.and_eq_true] at hcond
      have hmon : dt.month = (nextMonth^[i] (sy, sm)).2 :=
        of_decide_eq_true hcond.2
      have hfacts := monthGridDates_inMonth_facts (nextMonth^[i] (sy, sm)).1
        (nextMonth^[i] (sy, sm)).2 ws hit.1 dt hdtmem
      have hdteq : dt = d := toISO_inj dt d hfacts.1 hd (eq_of_beq hcond.1)
      have hyq := hfacts.2 hmon
      rw [hdteq] at hmon hyq
      have hidx := hit.2
      have hq : monthIndex (nextMonth^[i] (sy, sm)) =
          12 * (nextMonth^[i] (sy, sm)).1 + ((nextMonth^[i] (sy, sm)).2 : ℤ) := rfl
      rw [hq] at hidx
      simp only [monthIndex_mk] at h1 h2 hieq hidx
      omega
  rw [List.countP_congr (fun x hx => by rw [key x hx])]
  have hcc : (List.range ((monthIndex (ey, em) + 1 -
      monthIndex (sy, sm)).toNat)).countP
        (fun i => i == (monthIndex (d.year, d.month) - monthIndex (sy, sm)).toNat) =
      (List.range ((monthIndex (ey, em) + 1 - monthIndex (sy, sm)).toNat)).count
        ((monthIndex (d.year, d.month) - monthIndex (sy, sm)).toNat) := rfl
  rw [hcc]
  exact List.count_eq_one_of_mem (List.nodup_range _) (List.mem_range.mpr hi0lt)

/-- Witness for `C7_unique_inMonth`: 2025-02-10 appears in-month in exactly
one grid of the January–March 2025 sequence. -/
theorem C7_unique_inMonth_witness :
    (0 : ℕ) < 12 ∧ (2 : ℕ) < 12 ∧ ValidDate ⟨2025, 1, 10⟩ ∧
    monthIndex (2025, 0) ≤ monthIndex ((2025 : ℤ), (1 : ℕ)) ∧
    monthIndex ((2025 : ℤ), (1 : ℕ)) ≤ monthIndex (2025, 2) ∧
    (buildMonths 2025 0 2025 2 WeekStart.sun).countP
      (fun g => g.days.any
        (fun md => md.iso == toISO ⟨2025, 1, 10⟩ && md.inMonth)) = 1 := by
  refine ⟨by norm_num, by norm_num, by decide, by decide, by decide, ?_⟩
  exact C7_unique_inMonth 2025 0 2025 2 WeekStart.sun ⟨2025, 1, 10⟩
    (by norm_num) (by norm_num) (by decide) (by decide) (by decide)
